import Mathlib

/-
Verification of the swungdash/squigglypy lazy evaluation core.

This file gives a shallow embedding of the two source modules

  * `swungdash/context.py` — the scoped execution context (`SwungdashContext`,
    `Context.__enter__` / `__exit__`, `CacheKey`), and
  * `squigglypy/tree.py`   — the node model (`Value`, `Operation`,
    `Distribution`, `Mixture`), the resolution engine (`_resolve`, `cache_key`,
    `Mixture._sample`), constancy analysis (`_mark_constancy`,
    `mark_constancy`) and the structural traversal (`_bfs`, `bfs`).

Modelling conventions:
  * Python object identity is modelled with explicit ids.  Context objects,
    cache dicts and sample arrays live in id-indexed heaps inside `PyState`;
    tree nodes carry an `objId` field (identity of tree nodes is only ever
    tested against the module level tracer object, `tree is _tracer`).
  * Python numbers are modelled as `Rat`.  Sample arrays are opaque: the heap
    records only an array's length, which is all the code observes; a fresh
    id models a fresh array object returned by a sampling call.
  * Exceptions are modelled with `Except`; the state is threaded through
    errors (Python heaps survive exceptions, and `with` blocks restore the
    context variable on abnormal exit as well).
  * The random shuffle in `Mixture._sample` (`random.sample(xs, len xs)`) is
    a parameter `sh : List Nat → List Nat`; theorems that depend on it being
    a permutation take that as a hypothesis.
-/

namespace Swungdash

/-! ## Generic association lists (Python dicts / heaps keyed by object id) -/

def assocFind {α : Type} (l : List (Nat × α)) (i : Nat) : Option α :=
  match l with
  | [] => none
  | (j, v) :: t => if j = i then some v else assocFind t i

def assocUpdate {α : Type} (l : List (Nat × α)) (i : Nat) (f : α → α) :
    List (Nat × α) :=
  l.map (fun p => if p.1 = i then (p.1, f p.2) else p)

theorem assocFind_cons_self {α : Type} (l : List (Nat × α)) (i : Nat) (v : α) :
    assocFind ((i, v) :: l) i = some v := by
  simp [assocFind]

theorem assocFind_cons_ne {α : Type} (l : List (Nat × α)) (i j : Nat) (v : α)
    (h : j ≠ i) : assocFind ((j, v) :: l) i = assocFind l i := by
  simp [assocFind, h]

theorem assocUpdate_cons {α : Type} (a : Nat) (b : α) (t : List (Nat × α))
    (i : Nat) (f : α → α) :
    assocUpdate ((a, b) :: t) i f =
      (if a = i then (a, f b) else (a, b)) :: assocUpdate t i f := by
  by_cases h : a = i <;> simp [assocUpdate, h]

theorem assocFind_update_self {α : Type} (l : List (Nat × α)) (i : Nat)
    (f : α → α) : assocFind (assocUpdate l i f) i = (assocFind l i).map f := by
  induction l with
  | nil => rfl
  | cons p t ih =>
    obtain ⟨a, b⟩ := p
    by_cases h : a = i
    · subst h
      rw [assocUpdate_cons, if_pos rfl]
      simp [assocFind]
    · rw [assocUpdate_cons, if_neg h]
      simp [assocFind, h]
      exact ih

theorem assocFind_update_ne {α : Type} (l : List (Nat × α)) (i j : Nat)
    (f : α → α) (h : j ≠ i) :
    assocFind (assocUpdate l j f) i = assocFind l i := by
  induction l with
  | nil => rfl
  | cons p t ih =>
    obtain ⟨a, b⟩ := p
    by_cases hp : a = j
    · subst hp
      rw [assocUpdate_cons, if_pos rfl]
      have hi : a ≠ i := h
      simp [assocFind, hi]
      exact ih
    · rw [assocUpdate_cons, if_neg hp]
      by_cases hi : a = i
      · subst hi
        simp [assocFind, hp]
      · simp [assocFind, hp, hi]
        exact ih

theorem assocFind_mem {α : Type} (l : List (Nat × α)) (i : Nat) (v : α)
    (h : assocFind l i = some v) : (i, v) ∈ l := by
  induction l with
  | nil => simp [assocFind] at h
  | cons p t ih =>
    obtain ⟨a, b⟩ := p
    by_cases hp : a = i
    · subst hp
      simp [assocFind] at h
      subst h
      exact List.mem_cons_self _ _
    · simp [assocFind, hp] at h
      exact List.mem_cons_of_mem _ (ih h)

/-! ## `swungdash/context.py` — cache keys and the context machinery -/

/-- Function objects, compared by identity (as Python compares functions
inside a dataclass `CacheKey` by `==`, which is identity for functions).
The arithmetic and comparison constructors are the members of the `operator`
module used by `Value._operation`; `sampler` stands for an external sampling
function such as `normal` or `uniform`. -/
inductive FuncId where
  | add | sub | mul | truediv | floordiv | mod | pow
  | neg | pos | abs
  | lt | le | eq | ne | ge | gt
  | sampler (name : String)
deriving DecidableEq

/-- A Python hashable used as a dict key by the caching layer.  A cache key is
either the frozen dataclass `CacheKey` (constructor `ckey`, one argument per
dataclass field, each defaulting to `None` = `none`) or some other hashable
that `Value.cache_key` can return directly: a raw number (`Value.value` when
it is a `float`) or the `_empty` sentinel. -/
inductive HKey where
  | num (x : Rat)
  | empty
  | ckey (function : Option FuncId) (args : Option (List Rat))
      (kwargs : Option (List (String × Rat))) (sample_count : Option Nat)
      (nested : Option (List HKey))

mutual

def hkeyBeq : HKey → HKey → Bool
  | .num x, .num y => decide (x = y)
  | .empty, .empty => true
  | .ckey f1 a1 k1 c1 n1, .ckey f2 a2 k2 c2 n2 =>
    decide (f1 = f2) && decide (a1 = a2) && decide (k1 = k2) &&
      decide (c1 = c2) && hkeyOBeq n1 n2
  | _, _ => false

def hkeyOBeq : Option (List HKey) → Option (List HKey) → Bool
  | none, none => true
  | some l1, some l2 => hkeyLBeq l1 l2
  | _, _ => false

def hkeyLBeq : List HKey → List HKey → Bool
  | [], [] => true
  | x :: xs, y :: ys => hkeyBeq x y && hkeyLBeq xs ys
  | _, _ => false

end

mutual

theorem hkeyBeq_iff : ∀ a b : HKey, hkeyBeq a b = true ↔ a = b
  | .num x, .num y => by simp [hkeyBeq]
  | .num _, .empty => by simp [hkeyBeq]
  | .num _, .ckey _ _ _ _ _ => by simp [hkeyBeq]
  | .empty, .num _ => by simp [hkeyBeq]
  | .empty, .empty => by simp [hkeyBeq]
  | .empty, .ckey _ _ _ _ _ => by simp [hkeyBeq]
  | .ckey _ _ _ _ _, .num _ => by simp [hkeyBeq]
  | .ckey _ _ _ _ _, .empty => by simp [hkeyBeq]
  | .ckey f1 a1 k1 c1 n1, .ckey f2 a2 k2 c2 n2 => by
    simp only [hkeyBeq, Bool.and_eq_true, decide_eq_true_eq, HKey.ckey.injEq]
    rw [hkeyOBeq_iff n1 n2]
    tauto

theorem hkeyOBeq_iff : ∀ x y : Option (List HKey), hkeyOBeq x y = true ↔ x = y
  | none, none => by simp [hkeyOBeq]
  | none, some _ => by simp [hkeyOBeq]
  | some _, none => by simp [hkeyOBeq]
  | some l1, some l2 => by
    simp only [hkeyOBeq, Option.some.injEq]
    exact hkeyLBeq_iff l1 l2

theorem hkeyLBeq_iff : ∀ x y : List HKey, hkeyLBeq x y = true ↔ x = y
  | [], [] => by simp [hkeyLBeq]
  | [], _ :: _ => by simp [hkeyLBeq]
  | _ :: _, [] => by simp [hkeyLBeq]
  | h1 :: t1, h2 :: t2 => by
    simp only [hkeyLBeq, Bool.and_eq_true, List.cons.injEq]
    rw [hkeyBeq_iff h1 h2, hkeyLBeq_iff t1 t2]

end

instance : DecidableEq HKey := fun a b =>
  decidable_of_iff (hkeyBeq a b = true) (hkeyBeq_iff a b)

/-- A resolved Python value: a number (int/float as `Rat`), a bool, a sample
array (by object id into `PyState.arrHeap`), or the `_empty` sentinel that
`Value._resolve` returns for an empty `Value`. -/
inductive PVal where
  | num (x : Rat)
  | bool (b : Bool)
  | arr (id : Nat)
  | empty
deriving DecidableEq

/-- Python exception classes that the modelled code can raise. -/
inductive PErr where
  | typeError
  | zeroDivisionError
  | valueError
deriving DecidableEq

/-- A cache dict: `CacheKey`-indexed mapping to resolved values (new entries
are consed in front, so `dictFind` sees the most recent binding, matching
dict assignment). -/
abbrev Cache := List (HKey × PVal)

def dictFind (c : Cache) (k : HKey) : Option PVal :=
  match c with
  | [] => none
  | (k', v) :: t => if k' = k then some v else dictFind t k

/-- `SwungdashContext`: the `cache` field holds the id of a cache dict in
`PyState.cacheHeap` (Python stores a reference to a mutable dict). -/
structure Ctx where
  cache : Nat
  cache_rule : String
  sample_count : Nat
deriving DecidableEq

/-- `DEFAULT_SAMPLE_COUNT = 1000`. -/
def DEFAULT_SAMPLE_COUNT : Nat := 1000

/-- A record of one invocation of an external sampling function:
`function(*args, size=sample_count, **kwargs)`. -/
structure SampleCall where
  function : FuncId
  args : List Rat
  kwargs : List (String × Rat)
  size : Nat
deriving DecidableEq

/-- The global mutable state: heaps of context objects, cache dicts and
sample arrays (arrays are opaque, only their length is recorded), the
context variable `Context.context` (`cur`), fresh-id counters, and a log of
sampling-function invocations. -/
structure PyState where
  ctxHeap : List (Nat × Ctx) := []
  cacheHeap : List (Nat × Cache) := []
  arrHeap : List (Nat × Nat) := []
  cur : Option Nat := none
  freshCtx : Nat := 0
  freshCache : Nat := 0
  freshArr : Nat := 0
  callLog : List SampleCall := []
deriving DecidableEq

def lookupCtx (s : PyState) (i : Nat) : Ctx :=
  (assocFind s.ctxHeap i).getD ⟨0, "constant", DEFAULT_SAMPLE_COUNT⟩

/-- `Context.getcontext`: return the context in the context variable; if none
was ever installed, create and install a default `SwungdashContext()` (fresh
empty cache dict, `cache_rule = "constant"`, `sample_count = 1000`). -/
def getcontext (s : PyState) : Nat × PyState :=
  match s.cur with
  | some i => (i, s)
  | none =>
    let cid := s.freshCache
    let ctxId := s.freshCtx
    (ctxId,
      { s with
        cacheHeap := (cid, ([] : Cache)) :: s.cacheHeap
        ctxHeap := (ctxId, ⟨cid, "constant", DEFAULT_SAMPLE_COUNT⟩) :: s.ctxHeap
        cur := some ctxId
        freshCache := cid + 1
        freshCtx := ctxId + 1 })

/-- The keyword overrides passed to `Context(**kwargs)`.  A `cache` override
passes a dict object; we model it by its contents, allocated fresh on entry. -/
structure Overrides where
  sample_count : Option Nat := none
  cache_rule : Option String := none
  cache : Option Cache := none

/-- The `Context` manager object after `__enter__`: `saved_context` and
`new_context` (both ids of context objects). -/
structure CtxMgr where
  saved : Nat
  new : Nat
deriving DecidableEq

/-- `Context.__enter__`: save the current context, build a new
`SwungdashContext` from `dict(vars(saved), **kwargs)` — a shallow copy with
the given fields overridden (the `cache` field keeps the same dict
*reference* unless explicitly overridden) — install it, and return it. -/
def ctxEnter (ov : Overrides) (s : PyState) : CtxMgr × PyState :=
  let r := getcontext s
  let saved := r.1
  let s1 := r.2
  let old := lookupCtx s1 saved
  match ov.cache with
  | none =>
    let merged : Ctx :=
      ⟨old.cache, ov.cache_rule.getD old.cache_rule,
        ov.sample_count.getD old.sample_count⟩
    (⟨saved, s1.freshCtx⟩,
      { s1 with
        ctxHeap := (s1.freshCtx, merged) :: s1.ctxHeap
        cur := some s1.freshCtx
        freshCtx := s1.freshCtx + 1 })
  | some d =>
    let cid := s1.freshCache
    let merged : Ctx :=
      ⟨cid, ov.cache_rule.getD old.cache_rule,
        ov.sample_count.getD old.sample_count⟩
    (⟨saved, s1.freshCtx⟩,
      { s1 with
        cacheHeap := (cid, d) :: s1.cacheHeap
        freshCache := cid + 1
        ctxHeap := (s1.freshCtx, merged) :: s1.ctxHeap
        cur := some s1.freshCtx
        freshCtx := s1.freshCtx + 1 })

/-- `Context.__exit__`: unconditionally reinstall the saved context object
(this runs on both normal and exceptional exit of the `with` block). -/
def ctxExit (m : CtxMgr) (s : PyState) : PyState :=
  { s with cur := some m.saved }

/-- Read a cache dict entry through a dict id (`key in cache` / `cache[key]`). -/
def cacheRead (s : PyState) (cid : Nat) (k : HKey) : Option PVal :=
  match assocFind s.cacheHeap cid with
  | some c => dictFind c k
  | none => none

/-- Write a cache dict entry in place (`cache[key] = value`); all contexts
holding the same dict id observe the update. -/
def cacheWrite (s : PyState) (cid : Nat) (k : HKey) (v : PVal) : PyState :=
  { s with cacheHeap := assocUpdate s.cacheHeap cid (fun c => (k, v) :: c) }

/-! ## `squigglypy/tree.py` — the node model -/

/-- Tree nodes (`Resolveable` and its subclasses). A `Value` wrapping a raw
number, the `_empty` sentinel, or another `Resolveable` is split into the
three constructors `valueNum`, `valueEmpty` and `value`. `objId` models
Python object identity for `Value` instances: the only identity test in the
code is `tree is _tracer`, and the module-level tracer has `objId = 0`.
`constant` is the mutable `Value.constant` field; `Distribution.constant` is
the class attribute `True`, which `_mark_constancy` never changes, so `dist`
carries no constant field. `Operation` instances are not `Value`s and have
no `objId`/`constant`; by construction (`Value._operation`) their operands
are always `Value` instances, the second being `Value(_empty)` for unary
operators. -/
inductive Node where
  | value (objId : Nat) (constant : Option Bool) (inner : Node)
  | valueNum (objId : Nat) (constant : Option Bool) (x : Rat)
  | valueEmpty (objId : Nat) (constant : Option Bool)
  | operation (function : FuncId) (this other : Node)
  | dist (objId : Nat) (function : FuncId) (args : List Rat)
      (kwargs : List (String × Rat))
  | mixture (objId : Nat) (constant : Option Bool) (values : List Node)

/-- The id of the module-level `_tracer = Value(0, name="x")` object. -/
def tracerId : Nat := 0

/-- The module-level `_tracer` template at import time (value `0`,
`constant` unset). -/
def tracerTemplate0 : Node := .valueNum tracerId none 0

def nodeObjId : Node → Option Nat
  | .value i _ _ => some i
  | .valueNum i _ _ => some i
  | .valueEmpty i _ => some i
  | .operation _ _ _ => none
  | .dist i _ _ _ => some i
  | .mixture i _ _ => some i

/-- The `constant` attribute as read on a node (`Distribution` answers the
class attribute `True`; an `Operation` has none). -/
def constantField : Node → Option Bool
  | .value _ c _ => c
  | .valueNum _ c _ => c
  | .valueEmpty _ c => c
  | .operation _ _ _ => none
  | .dist _ _ _ _ => some true
  | .mixture _ c _ => c

/-- Assignment `node.constant = b`. `_mark_constancy` only ever assigns
`True` to a `Distribution` (its classification is its declared constant), so
the model keeps `dist` unchanged; `Operation`s are never assigned to. -/
def setConstant : Node → Bool → Node
  | .value i _ v, b => .value i (some b) v
  | .valueNum i _ x, b => .valueNum i (some b) x
  | .valueEmpty i _, b => .valueEmpty i (some b)
  | .operation f a b', _ => .operation f a b'
  | .dist i f a k, _ => .dist i f a k
  | .mixture i _ vs, b => .mixture i (some b) vs

/-! ## Cache keys (`cache_key` properties) -/

/-- Insertion into a list sorted by the first component; kwargs keys are
unique (they come from a dict), so this computes `sorted(kwargs.items())`. -/
def insertSorted (p : String × Rat) : List (String × Rat) → List (String × Rat)
  | [] => [p]
  | q :: t => if decide (p.1 ≤ q.1) then p :: q :: t else q :: insertSorted p t

def sortKwargs : List (String × Rat) → List (String × Rat)
  | [] => []
  | p :: t => insertSorted p (sortKwargs t)

/-- The `CacheKey` built by `Distribution.cache_key` for a given active
sample count. -/
def distKey (f : FuncId) (args : List Rat) (kwargs : List (String × Rat))
    (n : Nat) : HKey :=
  .ckey (some f) (some args) (some (sortKwargs kwargs)) (some n) none

/-- `Distribution.cache_key`: enters `with Context() as context` (allocating
a fresh context object that shares every field with the active one) and
builds the key from the active sample count. -/
def distCacheKey (f : FuncId) (args : List Rat)
    (kwargs : List (String × Rat)) (s : PyState) : HKey × PyState :=
  let r := ctxEnter {} s
  let ctx := lookupCtx r.2 r.1.new
  (distKey f args kwargs ctx.sample_count, ctxExit r.1 r.2)

/-- `dataclasses.replace(key, sample_count=None)` as used by
`Mixture.cache_key`: raises `TypeError` when the key is not a dataclass
instance (e.g. a raw number returned by `Value.cache_key`). -/
def replaceSampleCountNone : HKey → Except PErr HKey
  | .ckey f a k _ n => .ok (.ckey f a k none n)
  | _ => .error .typeError

mutual

/-- `Resolveable.cache_key` dispatch: `Value.cache_key` forwards to the
wrapped resolveable or returns the raw wrapped value; `Operation.cache_key`
nests the operand keys; `Distribution.cache_key` and `Mixture.cache_key`
read the active sample count inside their own `with Context()` scope. -/
def cacheKeyN : Node → PyState → Except PErr HKey × PyState
  | .value _ _ inner, s => cacheKeyN inner s
  | .valueNum _ _ x, s => (.ok (.num x), s)
  | .valueEmpty _ _, s => (.ok .empty, s)
  | .operation f a b, s =>
    match cacheKeyN a s with
    | (.error e, s1) => (.error e, s1)
    | (.ok ka, s1) =>
      match cacheKeyN b s1 with
      | (.error e, s2) => (.error e, s2)
      | (.ok kb, s2) =>
        (.ok (.ckey (some f) none none none (some [ka, kb])), s2)
  | .dist _ f args kwargs, s =>
    let r := distCacheKey f args kwargs s
    (.ok r.1, r.2)
  | .mixture _ _ values, s =>
    let r := ctxEnter {} s
    let ctx := lookupCtx r.2 r.1.new
    match cacheKeyList values r.2 with
    | (.error e, s2) => (.error e, ctxExit r.1 s2)
    | (.ok ks, s2) =>
      (.ok (.ckey none none none (some ctx.sample_count) (some ks)),
        ctxExit r.1 s2)

/-- The generator `tuple(replace(value.cache_key, sample_count=None) for
value in self.values)`: left to right, stopping at the first exception. -/
def cacheKeyList : List Node → PyState → Except PErr (List HKey) × PyState
  | [], s => (.ok [], s)
  | v :: vs, s =>
    match cacheKeyN v s with
    | (.error e, s1) => (.error e, s1)
    | (.ok k, s1) =>
      match replaceSampleCountNone k with
      | .error e => (.error e, s1)
      | .ok k' =>
        match cacheKeyList vs s1 with
        | (.error e, s2) => (.error e, s2)
        | (.ok ks, s2) => (.ok (k' :: ks), s2)

end

/-- `Mixture.cache_key` as a standalone function (each property access runs
this body, entering its own `with Context()` scope). -/
def mixtureKey (values : List Node) (s : PyState) :
    Except PErr HKey × PyState :=
  let r := ctxEnter {} s
  let ctx := lookupCtx r.2 r.1.new
  match cacheKeyList values r.2 with
  | (.error e, s2) => (.error e, ctxExit r.1 s2)
  | (.ok ks, s2) =>
    (.ok (.ckey none none none (some ctx.sample_count) (some ks)),
      ctxExit r.1 s2)

theorem cacheKeyN_mixture (i : Nat) (c : Option Bool) (values : List Node)
    (s : PyState) : cacheKeyN (.mixture i c values) s = mixtureKey values s := by
  rw [cacheKeyN, mixtureKey]

/-! ## Applying `operator` functions during `Operation._resolve` -/

def isUnaryOp : FuncId → Bool
  | .neg | .pos | .abs => true
  | _ => false

def isBinaryOp : FuncId → Bool
  | .add | .sub | .mul | .truediv | .floordiv | .mod | .pow
  | .lt | .le | .eq | .ne | .ge | .gt => true
  | _ => false

/-- The binary arithmetic operators excluding `eq`/`ne` (Python `==`/`!=`
accept arbitrary operands; all others raise `TypeError` on the `_empty`
sentinel, an `Enum` member supporting no arithmetic or ordering). -/
def strictBinaryOp : FuncId → Bool
  | .add | .sub | .mul | .truediv | .floordiv | .mod | .pow
  | .lt | .le | .ge | .gt => true
  | _ => false

/-- Allocate a fresh array object of the given length (the result of a
sampling call or a numpy elementwise operation / concatenation). -/
def allocArr (len : Nat) (s : PyState) : Except PErr PVal × PyState :=
  (.ok (.arr s.freshArr),
    { s with arrHeap := (s.freshArr, len) :: s.arrHeap,
             freshArr := s.freshArr + 1 })

def arrLen (s : PyState) (i : Nat) : Option Nat := assocFind s.arrHeap i

/-- Python numbers are ints/floats; bools coerce to 0/1 in arithmetic. -/
def toNum : PVal → Option Rat
  | .num x => some x
  | .bool b => some (if b then 1 else 0)
  | _ => none

/-- A binary `operator` function on two Python numbers.  `truediv`,
`floordiv` and `mod` follow Python semantics (floor division and matching
remainder, `ZeroDivisionError` on a zero divisor). `pow` is modelled on
integer exponents (the claims never exercise fractional powers). -/
def numBinary (f : FuncId) (a b : Rat) : Except PErr PVal :=
  match f with
  | .add => .ok (.num (a + b))
  | .sub => .ok (.num (a - b))
  | .mul => .ok (.num (a * b))
  | .truediv => if b = 0 then .error .zeroDivisionError else .ok (.num (a / b))
  | .floordiv =>
    if b = 0 then .error .zeroDivisionError
    else .ok (.num ((Rat.floor (a / b) : Int) : Rat))
  | .mod =>
    if b = 0 then .error .zeroDivisionError
    else .ok (.num (a - b * ((Rat.floor (a / b) : Int) : Rat)))
  | .pow =>
    if b.den = 1 then
      if 0 ≤ b.num then .ok (.num (a ^ b.num.toNat))
      else if a = 0 then .error .zeroDivisionError
      else .ok (.num (a ^ b.num))
    else .error .typeError
  | .lt => .ok (.bool (decide (a < b)))
  | .le => .ok (.bool (decide (a ≤ b)))
  | .eq => .ok (.bool (decide (a = b)))
  | .ne => .ok (.bool (decide (a ≠ b)))
  | .ge => .ok (.bool (decide (b ≤ a)))
  | .gt => .ok (.bool (decide (b < a)))
  | _ => .error .typeError

/-- Apply a binary `operator` builtin to two resolved operands.  The
`_empty` sentinel supports only `==`/`!=` (by identity); numpy array
operands produce fresh result arrays (broadcasting a scalar, or requiring
equal lengths elementwise). -/
def applyBinary (f : FuncId) (a b : PVal) (s : PyState) :
    Except PErr PVal × PyState :=
  match a, b with
  | .empty, _ | _, .empty =>
    if f = .eq then (.ok (.bool (decide (a = b))), s)
    else if f = .ne then (.ok (.bool (!decide (a = b))), s)
    else (.error .typeError, s)
  | .arr i, .arr j =>
    (match arrLen s i, arrLen s j with
     | some li, some lj =>
       if li = lj then allocArr li s else (.error .valueError, s)
     | _, _ => (.error .valueError, s))
  | .arr i, _ =>
    (match arrLen s i with
     | some li => allocArr li s
     | none => (.error .valueError, s))
  | _, .arr j =>
    (match arrLen s j with
     | some lj => allocArr lj s
     | none => (.error .valueError, s))
  | _, _ =>
    (match toNum a, toNum b with
     | some x, some y =>
       (match numBinary f x y with
        | .ok v => (.ok v, s)
        | .error e => (.error e, s))
     | _, _ => (.error .typeError, s))

/-- Apply a unary `operator` builtin (`neg`, `pos`, `abs`). -/
def applyUnary (f : FuncId) (a : PVal) (s : PyState) :
    Except PErr PVal × PyState :=
  match a with
  | .arr i =>
    (match arrLen s i with
     | some li => allocArr li s
     | none => (.error .valueError, s))
  | .empty => (.error .typeError, s)
  | _ =>
    (match toNum a with
     | some x =>
       (match f with
        | .neg => (.ok (.num (-x)), s)
        | .pos => (.ok (.num x), s)
        | .abs => (.ok (.num (if x < 0 then -x else x)), s)
        | _ => (.error .typeError, s))
     | none => (.error .typeError, s))

/-- `self.function(this)` or `self.function(this, other)` in
`Operation._resolve`: a binary builtin invoked with a single argument (the
resolved `other` was the `_empty` sentinel) raises `TypeError` for the wrong
arity, and a unary builtin invoked with two arguments likewise.  Sampling
functions are modelled only through `Distribution` nodes. -/
def applyFun (f : FuncId) (args : List PVal) (s : PyState) :
    Except PErr PVal × PyState :=
  match args with
  | [a] => if isUnaryOp f then applyUnary f a s else (.error .typeError, s)
  | [a, b] => if isBinaryOp f then applyBinary f a b s else (.error .typeError, s)
  | _ => (.error .typeError, s)

/-! ## Sampling and mixture allocation -/

/-- `self.function(*self.args, size=context.sample_count, **self.kwargs)`:
the external sampling function returns a fresh array of length `size`; the
invocation is recorded in the call log. -/
def sampleCall (f : FuncId) (args : List Rat) (kwargs : List (String × Rat))
    (size : Nat) (s : PyState) : Nat × PyState :=
  (s.freshArr,
    { s with arrHeap := (s.freshArr, size) :: s.arrHeap,
             freshArr := s.freshArr + 1,
             callLog := ⟨f, args, kwargs, size⟩ :: s.callLog })

/-- `[context.sample_count // len(values)] * len(values)`. -/
def baseCounts (n k : Nat) : List Nat := List.replicate k (n / k)

/-- `[c + int(i < remainder) for i, c in enumerate(sample_counts)]`. -/
def addRemainder (rem : Nat) (l : List Nat) : List Nat :=
  l.enum.map (fun p => p.2 + if p.1 < rem then 1 else 0)

/-- `np.concatenate(samples)`: every sample must be an array (a scalar is a
0-d array, which `np.concatenate` rejects), and the result is a fresh array
whose length is the sum of the lengths; an empty list is also rejected. -/
def concatArrays (vs : List PVal) (s : PyState) : Except PErr PVal × PyState :=
  match vs with
  | [] => (.error .valueError, s)
  | _ =>
    match vs.mapM (fun v => match v with
      | .arr i => arrLen s i
      | _ => none) with
    | some ls => allocArr ls.sum s
    | none => (.error .valueError, s)

/-! ## Resolution (`_resolve` / `~`) -/

mutual

/-- `Resolveable._resolve` dispatch, threaded through the mutable state.
`sh` models `random.sample(xs, len(xs))`, the shuffle in
`Mixture._sample`. -/
def resolve (sh : List Nat → List Nat) :
    Node → PyState → Except PErr PVal × PyState
  | .value _ _ inner, s => resolve sh inner s
  | .valueNum _ _ x, s => (.ok (.num x), s)
  | .valueEmpty _ _, s => (.ok .empty, s)
  | .operation f a b, s =>
    (match resolve sh a s with
     | (.error e, s1) => (.error e, s1)
     | (.ok va, s1) =>
       match resolve sh b s1 with
       | (.error e, s2) => (.error e, s2)
       | (.ok vb, s2) =>
         if vb = .empty then applyFun f [va] s2 else applyFun f [va, vb] s2)
  | .dist _ f args kwargs, s =>
    -- with Context() as context: check the cache under self.cache_key,
    -- otherwise sample and store under self.cache_key (recomputed, as the
    -- property is).  The `key in cache` test and the `cache[key]` subscript
    -- on the hit path are collapsed into one lookup: the recomputed key is
    -- identical, the repetition differing only in allocating one more
    -- transient scope object inside the property.
    (let r := ctxEnter {} s
     let ctx := lookupCtx r.2 r.1.new
     let rk := distCacheKey f args kwargs r.2
     match cacheRead rk.2 ctx.cache rk.1 with
     | some v => (.ok v, ctxExit r.1 rk.2)
     | none =>
       let ra := sampleCall f args kwargs ctx.sample_count rk.2
       let rk2 := distCacheKey f args kwargs ra.2
       (.ok (.arr ra.1),
         ctxExit r.1 (cacheWrite rk2.2 ctx.cache rk2.1 (.arr ra.1))))
  | .mixture _ _ values, s =>
    -- with Context() as context: check the cache under self.cache_key,
    -- otherwise self._sample(*self.values) and store under self.cache_key
    -- (recomputed, as the property is); the hit-path test and subscript are
    -- collapsed into one lookup as for Distribution.
    (let r := ctxEnter {} s
     let ctx := lookupCtx r.2 r.1.new
     match mixtureKey values r.2 with
     | (.error e, s2) => (.error e, ctxExit r.1 s2)
     | (.ok k, s2) =>
       match cacheRead s2 ctx.cache k with
       | some v => (.ok v, ctxExit r.1 s2)
       | none =>
         match mixtureSample sh values s2 with
         | (.error e, s3) => (.error e, ctxExit r.1 s3)
         | (.ok v, s3) =>
           match mixtureKey values s3 with
           | (.error e, s4) => (.error e, ctxExit r.1 s4)
           | (.ok k2, s4) =>
             (.ok v, ctxExit r.1 (cacheWrite s4 ctx.cache k2 v)))

/-- `Mixture._sample(*values)`: read `sample_count` and `len(values)` inside
a `with Context()` scope (`% len(values)` raises `ZeroDivisionError` for an
empty mixture), allocate `n // k` draws each plus one extra for the first
`n % k` positions, shuffle the allocation, resolve each component under a
nested scope overriding `sample_count`, and concatenate. -/
def mixtureSample (sh : List Nat → List Nat) (values : List Node)
    (s : PyState) : Except PErr PVal × PyState :=
  let r := ctxEnter {} s
  let ctx := lookupCtx r.2 r.1.new
  let s1 := ctxExit r.1 r.2
  if values.length = 0 then (.error .zeroDivisionError, s1)
  else
    let counts :=
      sh (addRemainder (ctx.sample_count % values.length)
        (baseCounts ctx.sample_count values.length))
    match resolveEach sh values counts s1 with
    | (.error e, s2) => (.error e, s2)
    | (.ok vs, s2) => concatArrays vs s2

/-- `for value, sample_count in zip(values, sample_counts): with
Context(sample_count=sample_count): samples.append(~value)`. -/
def resolveEach (sh : List Nat → List Nat) :
    List Node → List Nat → PyState → Except PErr (List PVal) × PyState
  | [], _, s => (.ok [], s)
  | _ :: _, [], s => (.ok [], s)
  | v :: vs, c :: cs, s =>
    let r := ctxEnter { sample_count := some c } s
    match resolve sh v r.2 with
    | (.error e, s2) => (.error e, ctxExit r.1 s2)
    | (.ok pv, s2) =>
      let s3 := ctxExit r.1 s2
      match resolveEach sh vs cs s3 with
      | (.error e, s4) => (.error e, s4)
      | (.ok pvs, s4) => (.ok (pv :: pvs), s4)

end

/-! ## Constancy analysis (`_mark_constancy` / `mark_constancy`) -/

/-- `_mark_constancy(tree)` for a `Value` argument, made functional: the
returned node is the input with the `constant` fields of its descendants
assigned exactly as the Python code mutates them (the caller assigns the
returned classification to the node itself, matching
`x.constant = _mark_constancy(x)` at every call site).  Branch order follows
the source: the `tree is _tracer` identity test (here: `objId = tracerId`,
never true for an `Operation`, which is not a `Value` and not the tracer),
then `isinstance(tree, Value)`, then the memoization on an already-set
`constant`, then `Mixture`, `Value`-wrapping-`Operation` (whose `other is
_empty` guard can never fire, `other` always being a `Value` instance),
`Value`-wrapping-`Value`, and the default `True`. -/
def markAux : Node → Node × Bool
  | .operation f a b => (.operation f a b, true)
  | .dist i f ar kw =>
    if i = tracerId then (.dist i f ar kw, false) else (.dist i f ar kw, true)
  | .valueNum i c x =>
    if i = tracerId then (.valueNum i c x, false)
    else
      match c with
      | some b => (.valueNum i c x, b)
      | none => (.valueNum i c x, true)
  | .valueEmpty i c =>
    if i = tracerId then (.valueEmpty i c, false)
    else
      match c with
      | some b => (.valueEmpty i c, b)
      | none => (.valueEmpty i c, true)
  | .mixture i c vs =>
    if i = tracerId then (.mixture i c vs, false)
    else
      match c with
      | some b => (.mixture i c vs, b)
      | none =>
        let rs := vs.attach.map (fun p => markAux p.1)
        (.mixture i none (rs.map (fun r => setConstant r.1 r.2)),
          rs.all (fun r => r.2))
  | .value i c inner =>
    if i = tracerId then (.value i c inner, false)
    else
      match c with
      | some b => (.value i c inner, b)
      | none =>
        match inner with
        | .operation f a b =>
          let ra := markAux a
          let rb := markAux b
          (.value i none
              (.operation f (setConstant ra.1 ra.2) (setConstant rb.1 rb.2)),
            ra.2 && rb.2)
        | inner' =>
          let r := markAux inner'
          (.value i none (setConstant r.1 r.2), r.2)
termination_by t => sizeOf t
decreasing_by
  all_goals simp_wf
  all_goals try (have h := List.sizeOf_lt_of_mem p.2; omega)
  all_goals omega

/-- `mark_constancy(tree)`: non-`Value` arguments are returned unchanged;
for a `Value` the classification is assigned to the root's own `constant`
field. -/
def markConstancy (t : Node) : Node :=
  match t with
  | .operation _ _ _ => t
  | _ =>
    let r := markAux t
    setConstant r.1 r.2

/-- The `Union[float, Value]` signature of `_mark_constancy`: a raw number
argument hits the `not isinstance(tree, Value)` branch and is classified
`True` with no side effect. -/
def markConstancyArg : Sum Rat Node → Sum Rat Node × Bool
  | .inl x => (.inl x, true)
  | .inr t =>
    let r := markAux t
    (.inr r.1, r.2)

/-! ## Structural traversal (`_bfs` / `bfs`) -/

/-- `_bfs(tree)`: a `Distribution` contributes only itself; a `Mixture`
itself followed by each component's traversal; a `Value` itself followed by
the traversal of its wrapped content (a raw number or the `_empty` sentinel
contributes nothing); an `Operation` the traversals of its operands; any
other content nothing. -/
def bfsList : Node → List Node
  | .dist i f a k => [.dist i f a k]
  | .mixture i c vs =>
    .mixture i c vs :: (vs.attach.map (fun p => bfsList p.1)).flatten
  | .value i c inner => .value i c inner :: bfsList inner
  | .valueNum i c x => [.valueNum i c x]
  | .valueEmpty i c => [.valueEmpty i c]
  | .operation _ a b => bfsList a ++ bfsList b
termination_by t => sizeOf t
decreasing_by
  all_goals simp_wf
  all_goals try (have h := List.sizeOf_lt_of_mem p.2; omega)
  all_goals omega

/-- `copy(_tracer)`: a shallow copy — same field values, fresh object
identity. -/
def copyValue (n : Node) (newId : Nat) : Node :=
  match n with
  | .value _ c inner => .value newId c inner
  | .valueNum _ c x => .valueNum newId c x
  | .valueEmpty _ c => .valueEmpty newId c
  | .operation f a b => .operation f a b
  | .dist _ f a k => .dist newId f a k
  | .mixture _ c vs => .mixture newId c vs

/-- `bfs(model)`: make a copy of the module-level tracer, invoke the model
— with the *module-level template*, `model(_tracer)`, not with the copy —
run constancy analysis on the resulting tree, and return the traversal
together with the copy.  `template` is the current `_tracer` object and
`copyId` the identity of the freshly allocated copy. -/
def bfs (model : Node → Node) (template : Node) (copyId : Nat) :
    List Node × Node :=
  let tracer := copyValue template copyId
  let tree := markConstancy (model template)
  (bfsList tree, tracer)

/-- Whether a tree contains a node with the given object id. -/
def refsObj (i : Nat) : Node → Bool
  | .value j _ inner => j = i || refsObj i inner
  | .valueNum j _ _ => j = i
  | .valueEmpty j _ => j = i
  | .operation _ a b => refsObj i a || refsObj i b
  | .dist j _ _ _ => j = i
  | .mixture j _ vs => j = i || vs.attach.any (fun p => refsObj i p.1)
termination_by t => sizeOf t
decreasing_by
  all_goals simp_wf
  all_goals try (have h := List.sizeOf_lt_of_mem p.2; omega)
  all_goals omega

/-- `tracer.value = x` on the object with id `i` (as `as_model` rebinds a
tracer): every node in the tree with that identity has its wrapped content
replaced by the raw number `x`. -/
def rebindValue (i : Nat) (x : Rat) : Node → Node
  | .value j c inner =>
    if j = i then .valueNum j c x else .value j c (rebindValue i x inner)
  | .valueNum j c y => if j = i then .valueNum j c x else .valueNum j c y
  | .valueEmpty j c => if j = i then .valueNum j c x else .valueEmpty j c
  | .operation f a b => .operation f (rebindValue i x a) (rebindValue i x b)
  | .dist j f ar kw => .dist j f ar kw
  | .mixture j c vs =>
    .mixture j c (vs.attach.map (fun p => rebindValue i x p.1))
termination_by t => sizeOf t
decreasing_by
  all_goals simp_wf
  all_goals try (have h := List.sizeOf_lt_of_mem p.2; omega)
  all_goals omega

/-! ## Characterizing context entry and `Distribution._resolve` -/

/-- The empty state at interpreter start. -/
def initState : PyState := {}

/-- A state with the default context installed (what the first
`Context.getcontext()` produces). -/
def readyState : PyState := (getcontext initState).2

theorem getcontext_some (s : PyState) (cid : Nat) (h : s.cur = some cid) :
    getcontext s = (cid, s) := by
  simp [getcontext, h]

theorem ctxEnter_no_cache (ov : Overrides) (s : PyState) (cid : Nat)
    (ctx : Ctx) (hov : ov.cache = none) (h1 : s.cur = some cid)
    (h2 : assocFind s.ctxHeap cid = some ctx) :
    ctxEnter ov s =
      (⟨cid, s.freshCtx⟩,
        { s with
          ctxHeap := (s.freshCtx,
            ⟨ctx.cache, ov.cache_rule.getD ctx.cache_rule,
              ov.sample_count.getD ctx.sample_count⟩) :: s.ctxHeap
          cur := some s.freshCtx
          freshCtx := s.freshCtx + 1 }) := by
  simp [ctxEnter, getcontext_some s cid h1, lookupCtx, h2, hov]

theorem ctxEnter_empty (s : PyState) (cid : Nat) (ctx : Ctx)
    (h1 : s.cur = some cid) (h2 : assocFind s.ctxHeap cid = some ctx) :
    ctxEnter {} s =
      (⟨cid, s.freshCtx⟩,
        { s with
          ctxHeap := (s.freshCtx, ctx) :: s.ctxHeap
          cur := some s.freshCtx
          freshCtx := s.freshCtx + 1 }) := by
  have h := ctxEnter_no_cache {} s cid ctx rfl h1 h2
  simpa using h

theorem distCacheKey_eq (f : FuncId) (args : List Rat)
    (kw : List (String × Rat)) (s : PyState) (cid : Nat) (ctx : Ctx)
    (h1 : s.cur = some cid) (h2 : assocFind s.ctxHeap cid = some ctx) :
    distCacheKey f args kw s =
      (distKey f args kw ctx.sample_count,
        { s with
          ctxHeap := (s.freshCtx, ctx) :: s.ctxHeap
          freshCtx := s.freshCtx + 1
          cur := some cid }) := by
  simp [distCacheKey, ctxEnter_empty s cid ctx h1 h2, lookupCtx,
    assocFind_cons_self, ctxExit]

/-- `Distribution._resolve` on a cache hit: the cached array object is
returned unchanged; no sampling call happens; only the context heap gains
the two scope objects allocated by the `with` blocks, and the context
variable is restored. -/
theorem resolve_dist_hit (sh : List Nat → List Nat) (oid : Nat) (f : FuncId)
    (args : List Rat) (kw : List (String × Rat)) (s : PyState) (cid : Nat)
    (ctx : Ctx) (v : PVal) (h1 : s.cur = some cid)
    (h2 : assocFind s.ctxHeap cid = some ctx)
    (hit : cacheRead s ctx.cache (distKey f args kw ctx.sample_count) = some v) :
    resolve sh (.dist oid f args kw) s =
      (.ok v,
        { s with
          ctxHeap := (s.freshCtx + 1, ctx) :: (s.freshCtx, ctx) :: s.ctxHeap
          freshCtx := s.freshCtx + 2
          cur := some cid }) := by
  rw [resolve]
  rw [ctxEnter_empty s cid ctx h1 h2]
  simp only [lookupCtx, assocFind_cons_self, Option.getD_some]
  rw [distCacheKey_eq f args kw _ s.freshCtx ctx rfl (assocFind_cons_self _ _ _)]
  simp only
  have hread :
      cacheRead
        { s with
          ctxHeap := (s.freshCtx + 1, ctx) :: (s.freshCtx, ctx) :: s.ctxHeap
          freshCtx := s.freshCtx + 2
          cur := some s.freshCtx }
        ctx.cache (distKey f args kw ctx.sample_count) = some v := by
    simpa [cacheRead] using hit
  rw [hread]
  simp [ctxExit]

/-- `Distribution._resolve` on a cache miss: the sampling function is
invoked with `size = sample_count` (logged), a fresh array of that length is
allocated and stored in the shared cache dict under the distribution's
cache key, and returned. -/
theorem resolve_dist_miss (sh : List Nat → List Nat) (oid : Nat) (f : FuncId)
    (args : List Rat) (kw : List (String × Rat)) (s : PyState) (cid : Nat)
    (ctx : Ctx) (h1 : s.cur = some cid)
    (h2 : assocFind s.ctxHeap cid = some ctx)
    (miss : cacheRead s ctx.cache (distKey f args kw ctx.sample_count) = none) :
    resolve sh (.dist oid f args kw) s =
      (.ok (.arr s.freshArr),
        { s with
          ctxHeap := (s.freshCtx + 2, ctx) :: (s.freshCtx + 1, ctx) ::
            (s.freshCtx, ctx) :: s.ctxHeap
          freshCtx := s.freshCtx + 3
          cacheHeap := assocUpdate s.cacheHeap ctx.cache
            (fun c => (distKey f args kw ctx.sample_count, .arr s.freshArr) :: c)
          arrHeap := (s.freshArr, ctx.sample_count) :: s.arrHeap
          freshArr := s.freshArr + 1
          callLog := ⟨f, args, kw, ctx.sample_count⟩ :: s.callLog
          cur := some cid }) := by
  rw [resolve]
  rw [ctxEnter_empty s cid ctx h1 h2]
  simp only [lookupCtx, assocFind_cons_self, Option.getD_some]
  rw [distCacheKey_eq f args kw _ s.freshCtx ctx rfl (assocFind_cons_self _ _ _)]
  simp only
  have hread :
      cacheRead
        { s with
          ctxHeap := (s.freshCtx + 1, ctx) :: (s.freshCtx, ctx) :: s.ctxHeap
          freshCtx := s.freshCtx + 2
          cur := some s.freshCtx }
        ctx.cache (distKey f args kw ctx.sample_count) = none := by
    simpa [cacheRead] using miss
  rw [hread]
  simp only [sampleCall]
  rw [distCacheKey_eq f args kw _ s.freshCtx ctx rfl ?hfind]
  case hfind =>
    rw [assocFind_cons_ne _ _ _ _ (by omega)]
    exact assocFind_cons_self _ _ _
  simp [ctxExit, cacheWrite]

theorem dictFind_cons_self (c : Cache) (k : HKey) (v : PVal) :
    dictFind ((k, v) :: c) k = some v := by
  simp [dictFind]

theorem dictFind_cons_ne (c : Cache) (k k' : HKey) (v : PVal) (h : k' ≠ k) :
    dictFind ((k', v) :: c) k = dictFind c k := by
  simp [dictFind, h]

theorem distKey_ne_of_count (f : FuncId) (args : List Rat)
    (kw : List (String × Rat)) (m n : Nat) (h : m ≠ n) :
    distKey f args kw m ≠ distKey f args kw n := by
  simp [distKey, h]

/-! ## Claim C4: scope exit restores the exact previous context -/

/-- Claim C4: exiting a `Context` scope — by normal completion or by a
propagated exception, i.e. from *any* state the body left behind —
reinstalls as the active context exactly the context instance (`saved`, an
object id) that was active immediately before entry; and nested scopes
compose as a stack: the inner scope's override wins while it is active,
exiting the inner scope reinstalls the outer scope's context object, and
exiting the outer scope then reinstalls the original one. -/
theorem context_exit_restores_exact_instance
    (ov1 ov2 : Overrides) (s sb : PyState) (cid : Nat) (ctx : Ctx)
    (hov1 : ov1.cache = none) (hov2 : ov2.cache = none)
    (h1 : s.cur = some cid) (h2 : assocFind s.ctxHeap cid = some ctx) :
    (∀ (m : CtxMgr) (sAny : PyState), (ctxExit m sAny).cur = some m.saved) ∧
    (ctxEnter ov1 s).1.saved = cid ∧
    ((ctxEnter ov1 s).2).cur = some (ctxEnter ov1 s).1.new ∧
    (ctxEnter ov2 (ctxEnter ov1 s).2).1.saved = (ctxEnter ov1 s).1.new ∧
    (lookupCtx (ctxEnter ov2 (ctxEnter ov1 s).2).2
        (ctxEnter ov2 (ctxEnter ov1 s).2).1.new).sample_count
      = ov2.sample_count.getD (ov1.sample_count.getD ctx.sample_count) ∧
    (ctxExit (ctxEnter ov2 (ctxEnter ov1 s).2).1 sb).cur
      = some (ctxEnter ov1 s).1.new ∧
    (ctxExit (ctxEnter ov1 s).1
        (ctxExit (ctxEnter ov2 (ctxEnter ov1 s).2).1 sb)).cur = some cid := by
  rw [ctxEnter_no_cache ov1 s cid ctx hov1 h1 h2]
  rw [ctxEnter_no_cache ov2 _ s.freshCtx _ hov2 rfl (assocFind_cons_self _ _ _)]
  refine ⟨fun m sAny => rfl, rfl, rfl, rfl, ?_, rfl, rfl⟩
  simp [lookupCtx, assocFind_cons_self]

/-- Witness for C4 at a concrete nested scope pair (`sample_count` overridden
to 5 then 7) started from the default context, with an arbitrary unrelated
body state standing in for an abnormal exit. -/
theorem context_exit_restores_exact_instance_witness :
    (ctxExit (ctxEnter ⟨some 5, none, none⟩ readyState).1
        (ctxExit
          (ctxEnter ⟨some 7, none, none⟩
            (ctxEnter ⟨some 5, none, none⟩ readyState).2).1 initState)).cur
      = some 0 :=
  (context_exit_restores_exact_instance ⟨some 5, none, none⟩
    ⟨some 7, none, none⟩ readyState initState 0 ⟨0, "constant", 1000⟩
    rfl rfl rfl rfl).2.2.2.2.2.2

/-! ## Claim C6: scope entry is a shallow copy sharing the cache dict -/

/-- Claim C6: entering a `Context` scope with keyword overrides installs a
new context object whose non-overridden fields keep the very same values
(for the `cache` field: the same dict reference) as the enclosing context;
in particular, without an explicit `cache` override the cache dict is
shared, so an entry written while the nested scope is active is still
visible through the enclosing context after the scope exits. -/
theorem context_enter_shallow_copy_shares_cache
    (ov : Overrides) (s : PyState) (cid : Nat) (ctx : Ctx) (d : Cache)
    (k : HKey) (v : PVal)
    (hov : ov.cache = none) (h1 : s.cur = some cid)
    (h2 : assocFind s.ctxHeap cid = some ctx)
    (hd : assocFind s.cacheHeap ctx.cache = some d) :
    lookupCtx (ctxEnter ov s).2 (ctxEnter ov s).1.new =
      ⟨ctx.cache, ov.cache_rule.getD ctx.cache_rule,
        ov.sample_count.getD ctx.sample_count⟩ ∧
    (lookupCtx (ctxEnter ov s).2 (ctxEnter ov s).1.new).cache = ctx.cache ∧
    cacheRead
      (ctxExit (ctxEnter ov s).1
        (cacheWrite (ctxEnter ov s).2
          (lookupCtx (ctxEnter ov s).2 (ctxEnter ov s).1.new).cache k v))
      ctx.cache k = some v ∧
    (ctxExit (ctxEnter ov s).1
        (cacheWrite (ctxEnter ov s).2
          (lookupCtx (ctxEnter ov s).2 (ctxEnter ov s).1.new).cache k v)).cur
      = some cid := by
  rw [ctxEnter_no_cache ov s cid ctx hov h1 h2]
  refine ⟨?_, ?_, ?_, rfl⟩
  · simp [lookupCtx, assocFind_cons_self]
  · simp [lookupCtx, assocFind_cons_self]
  · simp only [lookupCtx, assocFind_cons_self, Option.getD_some]
    simp only [cacheWrite, ctxExit, cacheRead]
    rw [assocFind_update_self, hd]
    simp [dictFind_cons_self]

/-- Witness for C6: a nested scope overriding only `sample_count` over the
default context; the write of key `HKey.empty ↦ 3` lands in the parent's
cache dict (id 0). -/
theorem context_enter_shallow_copy_shares_cache_witness :
    cacheRead
      (ctxExit (ctxEnter ⟨some 7, none, none⟩ readyState).1
        (cacheWrite (ctxEnter ⟨some 7, none, none⟩ readyState).2
          (lookupCtx (ctxEnter ⟨some 7, none, none⟩ readyState).2
            (ctxEnter ⟨some 7, none, none⟩ readyState).1.new).cache
          HKey.empty (.num 3)))
      0 HKey.empty = some (.num 3) :=
  (context_enter_shallow_copy_shares_cache ⟨some 7, none, none⟩ readyState 0
    ⟨0, "constant", 1000⟩ [] HKey.empty (.num 3) rfl rfl rfl rfl).2.2.1

/-! ## Claim C2: Distribution caching keyed by the active sample count -/

/-- Claim C2: resolving a `Distribution` node twice under the same active
context returns the identical cached array object both times (the second
resolution performs no sampling call and returns exactly the array stored
in the cache by the first), while resolving it once more inside a nested
scope whose `sample_count` is overridden to a different value `m` does not
reuse that array: it invokes the sampling function afresh with `size = m`
and returns a distinct fresh array object, because the cache key embeds the
sample count active at resolution time. -/
theorem distribution_cache_by_sample_count
    (sh : List Nat → List Nat) (oid : Nat) (f : FuncId) (args : List Rat)
    (kw : List (String × Rat)) (s : PyState) (cid : Nat) (ctx : Ctx)
    (d : Cache) (m : Nat)
    (h1 : s.cur = some cid) (h2 : assocFind s.ctxHeap cid = some ctx)
    (hcid : cid < s.freshCtx)
    (hd : assocFind s.cacheHeap ctx.cache = some d)
    (hm1 : dictFind d (distKey f args kw ctx.sample_count) = none)
    (hm2 : dictFind d (distKey f args kw m) = none)
    (hm : m ≠ ctx.sample_count) :
    ∃ s1 s2,
      resolve sh (.dist oid f args kw) s = (.ok (.arr s.freshArr), s1) ∧
      resolve sh (.dist oid f args kw) s1 = (.ok (.arr s.freshArr), s2) ∧
      s2.callLog = s1.callLog ∧
      cacheRead s1 ctx.cache (distKey f args kw ctx.sample_count)
        = some (.arr s.freshArr) ∧
      ∃ s4,
        resolve sh (.dist oid f args kw)
            (ctxEnter ⟨some m, none, none⟩ s2).2
          = (.ok (.arr (s.freshArr + 1)), s4) ∧
        PVal.arr (s.freshArr + 1) ≠ PVal.arr s.freshArr ∧
        s4.callLog = ⟨f, args, kw, m⟩ :: s2.callLog := by
  have miss1 : cacheRead s ctx.cache (distKey f args kw ctx.sample_count)
      = none := by
    simp [cacheRead, hd, hm1]
  have e1 := resolve_dist_miss sh oid f args kw s cid ctx h1 h2 miss1
  -- the state after the first (miss) resolution
  set s1 : PyState :=
    { s with
      ctxHeap := (s.freshCtx + 2, ctx) :: (s.freshCtx + 1, ctx) ::
        (s.freshCtx, ctx) :: s.ctxHeap
      freshCtx := s.freshCtx + 3
      cacheHeap := assocUpdate s.cacheHeap ctx.cache
        (fun c => (distKey f args kw ctx.sample_count, .arr s.freshArr) :: c)
      arrHeap := (s.freshArr, ctx.sample_count) :: s.arrHeap
      freshArr := s.freshArr + 1
      callLog := ⟨f, args, kw, ctx.sample_count⟩ :: s.callLog
      cur := some cid } with hs1
  have hfind1 : assocFind s1.ctxHeap cid = some ctx := by
    rw [hs1]
    simp only
    rw [assocFind_cons_ne _ _ _ _ (by omega),
      assocFind_cons_ne _ _ _ _ (by omega),
      assocFind_cons_ne _ _ _ _ (by omega)]
    exact h2
  have hread1 : cacheRead s1 ctx.cache (distKey f args kw ctx.sample_count)
      = some (.arr s.freshArr) := by
    rw [hs1]
    simp only [cacheRead]
    rw [assocFind_update_self, hd]
    simp [dictFind_cons_self]
  have e2 := resolve_dist_hit sh oid f args kw s1 cid ctx (.arr s.freshArr)
    rfl hfind1 hread1
  -- the state after the second (hit) resolution
  set s2 : PyState :=
    { s1 with
      ctxHeap := (s1.freshCtx + 1, ctx) :: (s1.freshCtx, ctx) :: s1.ctxHeap
      freshCtx := s1.freshCtx + 2
      cur := some cid } with hs2
  refine ⟨s1, s2, e1, e2, rfl, hread1, ?_⟩
  -- the nested scope with sample_count overridden to m
  have hfind2 : assocFind s2.ctxHeap cid = some ctx := by
    rw [hs2]
    simp only
    rw [assocFind_cons_ne _ _ _ _ (by omega),
      assocFind_cons_ne _ _ _ _ (by omega)]
    exact hfind1
  rw [ctxEnter_no_cache ⟨some m, none, none⟩ s2 cid ctx rfl rfl hfind2]
  simp only
  have hread2 :
      cacheRead
        { s2 with
          ctxHeap := (s2.freshCtx, ⟨ctx.cache, ctx.cache_rule, m⟩) :: s2.ctxHeap
          cur := some s2.freshCtx
          freshCtx := s2.freshCtx + 1 }
        ctx.cache (distKey f args kw m) = none := by
    simp only [cacheRead, hs2, hs1]
    rw [assocFind_update_self, hd]
    show dictFind ((distKey f args kw ctx.sample_count,
        PVal.arr s.freshArr) :: d) (distKey f args kw m) = none
    rw [dictFind_cons_ne _ _ _ _
      (distKey_ne_of_count f args kw _ _ (Ne.symm hm))]
    exact hm2
  have e3 := resolve_dist_miss sh oid f args kw
    { s2 with
      ctxHeap := (s2.freshCtx, ⟨ctx.cache, ctx.cache_rule, m⟩) :: s2.ctxHeap
      cur := some s2.freshCtx
      freshCtx := s2.freshCtx + 1 }
    s2.freshCtx ⟨ctx.cache, ctx.cache_rule, m⟩ rfl
    (assocFind_cons_self _ _ _) hread2
  exact ⟨_, e3, by simp, rfl⟩

/-- Witness for C2 at a concrete distribution (`normal(2, 1)`) resolved from
the default context (`sample_count = 1000`) and then in a nested scope with
`sample_count = 7`. -/
theorem distribution_cache_by_sample_count_witness :
    ∃ s1 s2,
      resolve id (.dist 5 (.sampler "normal") [2, 1] []) readyState
        = (.ok (.arr 0), s1) ∧
      resolve id (.dist 5 (.sampler "normal") [2, 1] []) s1
        = (.ok (.arr 0), s2) ∧
      s2.callLog = s1.callLog ∧
      cacheRead s1 0 (distKey (.sampler "normal") [2, 1] [] 1000)
        = some (.arr 0) ∧
      ∃ s4,
        resolve id (.dist 5 (.sampler "normal") [2, 1] [])
            (ctxEnter ⟨some 7, none, none⟩ s2).2
          = (.ok (.arr 1), s4) ∧
        PVal.arr 1 ≠ PVal.arr 0 ∧
        s4.callLog = ⟨.sampler "normal", [2, 1], [], 7⟩ :: s2.callLog :=
  distribution_cache_by_sample_count id 5 (.sampler "normal") [2, 1] []
    readyState 0 ⟨0, "constant", 1000⟩ [] 7 rfl rfl (by decide) rfl rfl rfl
    (by decide)

/-! ## Claim C7: structurally equal Distributions share cache entries -/

/-- Claim C7: two `Distribution` nodes built independently from the same
sampling-function object with equal positional and keyword arguments have
equal cache keys under the active context (whatever its sample count), so
resolving the second after the first within the same context returns the
very value already cached for the first and performs no new sampling
call. -/
theorem structurally_equal_distributions_share_cache
    (sh : List Nat → List Nat) (oid1 oid2 : Nat) (f : FuncId)
    (args : List Rat) (kw : List (String × Rat)) (s : PyState) (cid : Nat)
    (ctx : Ctx) (d : Cache)
    (h1 : s.cur = some cid) (h2 : assocFind s.ctxHeap cid = some ctx)
    (hcid : cid < s.freshCtx)
    (hd : assocFind s.cacheHeap ctx.cache = some d) :
    (cacheKeyN (.dist oid1 f args kw) s).1
      = (cacheKeyN (.dist oid2 f args kw) s).1 ∧
    ∃ r s1 s2,
      resolve sh (.dist oid1 f args kw) s = (.ok r, s1) ∧
      resolve sh (.dist oid2 f args kw) s1 = (.ok r, s2) ∧
      s2.callLog = s1.callLog := by
  refine ⟨by rw [cacheKeyN, cacheKeyN], ?_⟩
  rcases hv : dictFind d (distKey f args kw ctx.sample_count) with _ | v
  · -- first resolution misses, stores, second hits the stored entry
    have miss1 : cacheRead s ctx.cache (distKey f args kw ctx.sample_count)
        = none := by simp [cacheRead, hd, hv]
    have e1 := resolve_dist_miss sh oid1 f args kw s cid ctx h1 h2 miss1
    set s1 : PyState :=
      { s with
        ctxHeap := (s.freshCtx + 2, ctx) :: (s.freshCtx + 1, ctx) ::
          (s.freshCtx, ctx) :: s.ctxHeap
        freshCtx := s.freshCtx + 3
        cacheHeap := assocUpdate s.cacheHeap ctx.cache
          (fun c => (distKey f args kw ctx.sample_count, .arr s.freshArr) :: c)
        arrHeap := (s.freshArr, ctx.sample_count) :: s.arrHeap
        freshArr := s.freshArr + 1
        callLog := ⟨f, args, kw, ctx.sample_count⟩ :: s.callLog
        cur := some cid } with hs1
    have hfind1 : assocFind s1.ctxHeap cid = some ctx := by
      rw [hs1]
      simp only
      rw [assocFind_cons_ne _ _ _ _ (by omega),
        assocFind_cons_ne _ _ _ _ (by omega),
        assocFind_cons_ne _ _ _ _ (by omega)]
      exact h2
    have hread1 : cacheRead s1 ctx.cache (distKey f args kw ctx.sample_count)
        = some (.arr s.freshArr) := by
      rw [hs1]
      simp only [cacheRead]
      rw [assocFind_update_self, hd]
      simp [dictFind_cons_self]
    have e2 := resolve_dist_hit sh oid2 f args kw s1 cid ctx (.arr s.freshArr)
      rfl hfind1 hread1
    exact ⟨_, _, _, e1, e2, rfl⟩
  · -- already cached: both resolutions hit the same entry
    have hit : cacheRead s ctx.cache (distKey f args kw ctx.sample_count)
        = some v := by simp [cacheRead, hd, hv]
    have e1 := resolve_dist_hit sh oid1 f args kw s cid ctx v h1 h2 hit
    set s1 : PyState :=
      { s with
        ctxHeap := (s.freshCtx + 1, ctx) :: (s.freshCtx, ctx) :: s.ctxHeap
        freshCtx := s.freshCtx + 2
        cur := some cid } with hs1
    have hfind1 : assocFind s1.ctxHeap cid = some ctx := by
      rw [hs1]
      simp only
      rw [assocFind_cons_ne _ _ _ _ (by omega),
        assocFind_cons_ne _ _ _ _ (by omega)]
      exact h2
    have hread1 : cacheRead s1 ctx.cache (distKey f args kw ctx.sample_count)
        = some v := by
      rw [hs1]
      simpa [cacheRead] using hit
    have e2 := resolve_dist_hit sh oid2 f args kw s1 cid ctx v rfl hfind1 hread1
    exact ⟨_, _, _, e1, e2, rfl⟩

/-- Witness for C7: two distinct `Distribution` objects (ids 5 and 6) over
the same function and arguments, resolved from the default context. -/
theorem structurally_equal_distributions_share_cache_witness :
    (cacheKeyN (.dist 5 (.sampler "normal") [2, 1] []) readyState).1
      = (cacheKeyN (.dist 6 (.sampler "normal") [2, 1] []) readyState).1 ∧
    ∃ r s1 s2,
      resolve id (.dist 5 (.sampler "normal") [2, 1] []) readyState
        = (.ok r, s1) ∧
      resolve id (.dist 6 (.sampler "normal") [2, 1] []) s1 = (.ok r, s2) ∧
      s2.callLog = s1.callLog :=
  structurally_equal_distributions_share_cache id 5 6 (.sampler "normal")
    [2, 1] [] readyState 0 ⟨0, "constant", 1000⟩ [] rfl rfl (by decide) rfl

/-! ## Claim C9: the empty Mixture fails with ZeroDivisionError -/

theorem mixtureKey_nil (s : PyState) (cid : Nat) (ctx : Ctx)
    (h1 : s.cur = some cid) (h2 : assocFind s.ctxHeap cid = some ctx) :
    mixtureKey [] s =
      (.ok (.ckey none none none (some ctx.sample_count) (some [])),
        { s with
          ctxHeap := (s.freshCtx, ctx) :: s.ctxHeap
          freshCtx := s.freshCtx + 1
          cur := some cid }) := by
  rw [mixtureKey, ctxEnter_empty s cid ctx h1 h2]
  simp only [lookupCtx, assocFind_cons_self, Option.getD_some]
  rw [cacheKeyList]
  simp [ctxExit]

/-- Claim C9: resolving a `Mixture` built over an empty component sequence
always (whenever its key is not already cached, and resolution never caches
it) raises `ZeroDivisionError` in the allocation step
`context.sample_count % len(values)` of `_sample`; neither construction (the
node is freely constructible) nor cache-key computation rejects the empty
sequence earlier, and the error leaves every cache dict unchanged — nothing
is stored under that key. -/
theorem empty_mixture_zero_division
    (sh : List Nat → List Nat) (oid : Nat) (c : Option Bool) (s : PyState)
    (cid : Nat) (ctx : Ctx)
    (h1 : s.cur = some cid) (h2 : assocFind s.ctxHeap cid = some ctx)
    (hmiss : cacheRead s ctx.cache
      (.ckey none none none (some ctx.sample_count) (some [])) = none) :
    (cacheKeyN (.mixture oid c []) s).1
      = .ok (.ckey none none none (some ctx.sample_count) (some [])) ∧
    (resolve sh (.mixture oid c []) s).1 = .error .zeroDivisionError ∧
    ((resolve sh (.mixture oid c []) s).2).cacheHeap = s.cacheHeap ∧
    ((resolve sh (.mixture oid c []) s).2).cur = some cid := by
  have hall : resolve sh (.mixture oid c []) s =
      (.error .zeroDivisionError,
        { s with
          ctxHeap := (s.freshCtx + 2, ctx) :: (s.freshCtx + 1, ctx) ::
            (s.freshCtx, ctx) :: s.ctxHeap
          freshCtx := s.freshCtx + 3
          cur := some cid }) := by
    rw [resolve, ctxEnter_empty s cid ctx h1 h2]
    simp only [lookupCtx, assocFind_cons_self, Option.getD_some]
    rw [mixtureKey_nil _ s.freshCtx ctx rfl (assocFind_cons_self _ _ _)]
    simp only
    have hm' : cacheRead
        { s with
          ctxHeap := (s.freshCtx + 1, ctx) :: (s.freshCtx, ctx) :: s.ctxHeap
          freshCtx := s.freshCtx + 2
          cur := some s.freshCtx }
        ctx.cache (.ckey none none none (some ctx.sample_count) (some []))
        = none := hmiss
    rw [hm']
    rw [mixtureSample]
    rw [ctxEnter_empty _ s.freshCtx ctx rfl ?hf]
    case hf =>
      rw [assocFind_cons_ne _ _ _ _ (by omega)]
      exact assocFind_cons_self _ _ _
    simp [ctxExit]
  refine ⟨?_, by rw [hall], by rw [hall], by rw [hall]⟩
  rw [cacheKeyN_mixture, mixtureKey_nil s cid ctx h1 h2]

/-- Witness for C9: the empty mixture resolved from the default context. -/
theorem empty_mixture_zero_division_witness :
    (cacheKeyN (.mixture 9 none []) readyState).1
      = .ok (.ckey none none none (some 1000) (some [])) ∧
    (resolve id (.mixture 9 none []) readyState).1
      = .error .zeroDivisionError ∧
    ((resolve id (.mixture 9 none []) readyState).2).cacheHeap
      = readyState.cacheHeap ∧
    ((resolve id (.mixture 9 none []) readyState).2).cur = some 0 :=
  empty_mixture_zero_division id 9 none readyState 0 ⟨0, "constant", 1000⟩
    rfl rfl rfl

/-! ## Claim C10: a non-record component cache key raises TypeError -/

theorem cacheKeyList_append (xs ys : List Node) (s : PyState) :
    cacheKeyList (xs ++ ys) s =
      match cacheKeyList xs s with
      | (.error e, s1) => (.error e, s1)
      | (.ok ks, s1) =>
        match cacheKeyList ys s1 with
        | (.error e, s2) => (.error e, s2)
        | (.ok ks2, s2) => (.ok (ks ++ ks2), s2) := by
  induction xs generalizing s with
  | nil =>
    simp only [List.nil_append, cacheKeyList]
    rcases hy : cacheKeyList ys s with ⟨ks | ks, s2⟩ <;> simp [hy]
  | cons v vs ih =>
    simp only [List.cons_append, cacheKeyList]
    rcases hN : cacheKeyN v s with ⟨k | k, s1⟩ <;> simp only [hN]
    rcases hr : replaceSampleCountNone k with e | k' <;> simp only [hr]
    simp only [List.append_eq]
    rw [ih s1]
    rcases hv : cacheKeyList vs s1 with ⟨ks | ks, s2⟩ <;> simp only [hv]
    rcases hy : cacheKeyList ys s2 with ⟨ks2 | ks2, s3⟩ <;> simp [hy]

/-- Claim C10: computing a `Mixture`'s cache key — and therefore resolving
the mixture, which computes the key first — raises `TypeError` whenever some
component's own cache key is not a `CacheKey` record (every earlier
component contributing a record key), because the sample-count-blanking step
applies `dataclasses.replace` to each component key; in particular a `Value`
wrapping a raw number has the bare number as its cache key. -/
theorem mixture_cache_key_type_error
    (sh : List Nat → List Nat) (oid : Nat) (c : Option Bool)
    (pre post : List Node) (v : Node) (s : PyState)
    (hpre : ∀ s' : PyState, ∃ ks s'', cacheKeyList pre s' = (.ok ks, s''))
    (hv : ∀ s' : PyState, ∃ k s'', cacheKeyN v s' = (.ok k, s'') ∧
      replaceSampleCountNone k = .error .typeError) :
    (mixtureKey (pre ++ v :: post) s).1 = .error .typeError ∧
    (cacheKeyN (.mixture oid c (pre ++ v :: post)) s).1 = .error .typeError ∧
    (resolve sh (.mixture oid c (pre ++ v :: post)) s).1 = .error .typeError ∧
    (∀ (i : Nat) (cc : Option Bool) (x : Rat) (s' : PyState),
      cacheKeyN (.valueNum i cc x) s' = (.ok (.num x), s') ∧
      replaceSampleCountNone (.num x) = .error .typeError) := by
  have hlist : ∀ s' : PyState,
      ∃ s'', cacheKeyList (pre ++ v :: post) s' = (.error .typeError, s'') := by
    intro s'
    obtain ⟨ks, s1, hks⟩ := hpre s'
    obtain ⟨k, s2, hk, hrep⟩ := hv s1
    refine ⟨s2, ?_⟩
    rw [cacheKeyList_append, hks]
    simp only
    rw [cacheKeyList, hk]
    simp only
    rw [hrep]
  have hmk : ∀ s' : PyState,
      ∃ s'', mixtureKey (pre ++ v :: post) s' = (.error .typeError, s'') := by
    intro s'
    rw [mixtureKey]
    obtain ⟨s'', h⟩ := hlist (ctxEnter {} s').2
    rw [h]
    exact ⟨_, rfl⟩
  obtain ⟨sA, hA⟩ := hmk s
  refine ⟨by rw [hA], ?_, ?_, ?_⟩
  · rw [cacheKeyN_mixture, hA]
  · rw [resolve]
    obtain ⟨sB, hB⟩ := hmk (ctxEnter {} s).2
    rw [hB]
  · intro i cc x s'
    exact ⟨by rw [cacheKeyN], rfl⟩

/-- Witness for C10: a mixture whose sole component is `Value(2)` (the key
of a raw-number `Value` is the number itself, not a record). -/
theorem mixture_cache_key_type_error_witness :
    (mixtureKey ([] ++ Node.valueNum 3 none 2 :: []) readyState).1
      = .error .typeError ∧
    (cacheKeyN (.mixture 9 none ([] ++ Node.valueNum 3 none 2 :: []))
        readyState).1 = .error .typeError ∧
    (resolve id (.mixture 9 none ([] ++ Node.valueNum 3 none 2 :: []))
        readyState).1 = .error .typeError ∧
    cacheKeyN (.valueNum 3 none 2) readyState
      = (.ok (.num 2), readyState) ∧
    replaceSampleCountNone (.num 2) = .error .typeError :=
  have h := mixture_cache_key_type_error id 9 none [] [] (.valueNum 3 none 2)
    readyState (fun s' => ⟨[], s', by rw [cacheKeyList]⟩)
    (fun s' => ⟨.num 2, s', by rw [cacheKeyN], rfl⟩)
  ⟨h.1, h.2.1, h.2.2.1, (h.2.2.2 3 none 2 readyState).1,
    (h.2.2.2 3 none 2 readyState).2⟩

/-! ## Claim C8: the empty sentinel where a concrete value is required -/

/-- Claim C8: resolving (via `~`) a `Value` wrapping the `_empty` sentinel in
a position where a concrete value is required surfaces as an exception, not
as a normally returned value.  `Value(_empty)._resolve` itself returns the
sentinel; the positions requiring a concrete value are the operand slots of
the arithmetic/ordering operators (every binary operator except `==`/`!=`,
which accept arbitrary operands): in the `other` slot the resolved sentinel
makes `Operation._resolve` call the binary builtin with a single argument
(`TypeError` for the wrong arity), and in the `this` slot the builtin is
applied to the `Enum` sentinel itself (`TypeError`, unsupported operand).
Either way a `TypeError` propagates and the state is untouched. -/
theorem empty_sentinel_operand_raises
    (sh : List Nat → List Nat) (f : FuncId) (x : Rat)
    (i ia ib : Nat) (c ca cb : Option Bool) (s : PyState)
    (hf : strictBinaryOp f = true) :
    resolve sh
        (.value i c (.operation f (.valueNum ia ca x) (.valueEmpty ib cb))) s
      = (.error .typeError, s) ∧
    resolve sh
        (.value i c (.operation f (.valueEmpty ib cb) (.valueNum ia ca x))) s
      = (.error .typeError, s) := by
  constructor
  · simp only [resolve]
    cases f <;> simp_all [strictBinaryOp, applyFun, isUnaryOp]
  · simp only [resolve]
    cases f <;> simp_all [strictBinaryOp, applyFun, isUnaryOp, isBinaryOp,
      applyBinary]

/-- Witness for C8: `Value(3) + Value(_empty)` and the reverse, under
subtraction as well, from an arbitrary concrete state. -/
theorem empty_sentinel_operand_raises_witness :
    (resolve id
        (.value 1 none (.operation .add (.valueNum 2 none 3)
          (.valueEmpty 4 none))) initState
      = (.error .typeError, initState) ∧
    resolve id
        (.value 1 none (.operation .add (.valueEmpty 4 none)
          (.valueNum 2 none 3))) initState
      = (.error .typeError, initState)) ∧
    (resolve id
        (.value 1 none (.operation .truediv (.valueNum 2 none 3)
          (.valueEmpty 4 none))) initState
      = (.error .typeError, initState) ∧
    resolve id
        (.value 1 none (.operation .truediv (.valueEmpty 4 none)
          (.valueNum 2 none 3))) initState
      = (.error .typeError, initState)) :=
  ⟨empty_sentinel_operand_raises id .add 3 1 2 4 none none none initState rfl,
    empty_sentinel_operand_raises id .truediv 3 1 2 4 none none none initState
      rfl⟩

/-! ## Claim C5: the classification rules of `_mark_constancy` -/

theorem list_all_map {α β : Type} (l : List α) (g : α → β) (p : β → Bool) :
    (l.map g).all p = l.all (fun a => p (g a)) := by
  induction l with
  | nil => rfl
  | cons a t ih => simp [ih]

theorem list_any_map {α β : Type} (l : List α) (g : α → β) (p : β → Bool) :
    (l.map g).any p = l.any (fun a => p (g a)) := by
  induction l with
  | nil => rfl
  | cons a t ih => simp [ih]

theorem attach_map_eq {α β : Type} (l : List α) (g : α → β) :
    l.attach.map (fun p => g p.1) = l.map g :=
  List.attach_map_val l g

/-- `isinstance(tree.value, Value)`: every `Node` constructor except
`operation` models a `Value` instance. -/
def isValueInst : Node → Bool
  | .operation _ _ _ => false
  | _ => true

/-- Claim C5: `_mark_constancy` classifies by the bottom-up rules, in order:
(1) the tracer object itself is `False`, before any other rule;
(2) a non-`Node` raw number is `True`;
(3) a node whose `constant` field is already set keeps that declared value
with no descent (and hence no further side effect), so in particular a
`Distribution` is always `True`;
(4) a `Mixture` is `True` iff every component classifies `True`, and each
component's `constant` field is set to its classification as a side effect;
(5) a `Value` wrapping an `Operation` is `True` iff all present operands are
`True` (the placeholder `Value(_empty)` operand of a unary operation
classifies `True`, so it never changes the conjunction);
(6) a `Value` wrapping another `Value` inherits the wrapped value's
classification;
(7) anything else (a `Value` wrapping a raw number or the sentinel, with no
declared `constant`) defaults to `True`. -/
theorem constancy_classification_rules :
    (∀ t : Node, nodeObjId t = some tracerId → markAux t = (t, false)) ∧
    (∀ x : Rat, markConstancyArg (.inl x) = (.inl x, true)) ∧
    (∀ (t : Node) (b : Bool), nodeObjId t ≠ some tracerId →
      constantField t = some b → markAux t = (t, b)) ∧
    (∀ (i : Nat) (f : FuncId) (ar : List Rat) (kw : List (String × Rat)),
      i ≠ tracerId → markAux (.dist i f ar kw) = (.dist i f ar kw, true)) ∧
    (∀ (i : Nat) (vs : List Node), i ≠ tracerId →
      markAux (.mixture i none vs) =
        (.mixture i none
            (vs.map (fun v => setConstant (markAux v).1 (markAux v).2)),
          vs.all (fun v => (markAux v).2))) ∧
    (∀ (i : Nat) (f : FuncId) (a b : Node), i ≠ tracerId →
      (markAux (.value i none (.operation f a b))).2
        = ((markAux a).2 && (markAux b).2)) ∧
    (∀ i : Nat, i ≠ tracerId → (markAux (.valueEmpty i none)).2 = true) ∧
    (∀ (i : Nat) (inner : Node), i ≠ tracerId → isValueInst inner = true →
      (markAux (.value i none inner)).2 = (markAux inner).2) ∧
    (∀ (i : Nat) (x : Rat), i ≠ tracerId →
      markAux (.valueNum i none x) = (.valueNum i none x, true)) := by
  refine ⟨?_, fun x => rfl, ?_, ?_, ?_, ?_, ?_, ?_, ?_⟩
  · intro t h
    cases t <;> simp only [nodeObjId, Option.some.injEq, reduceCtorEq] at h <;>
      subst h <;> (rw [markAux.eq_def]; simp)
  · intro t b hni hc
    cases t with
    | value i c inner =>
      simp only [constantField] at hc
      have hni2 : i ≠ tracerId := fun hh => hni (by simp [nodeObjId, hh])
      rw [markAux.eq_def]
      simp [hni2, hc]
    | valueNum i c x =>
      simp only [constantField] at hc
      have hni2 : i ≠ tracerId := fun hh => hni (by simp [nodeObjId, hh])
      rw [markAux.eq_def]
      simp [hni2, hc]
    | valueEmpty i c =>
      simp only [constantField] at hc
      have hni2 : i ≠ tracerId := fun hh => hni (by simp [nodeObjId, hh])
      rw [markAux.eq_def]
      simp [hni2, hc]
    | operation f a b' => simp [constantField] at hc
    | dist i f ar kw =>
      simp only [constantField, Option.some.injEq] at hc
      have hni2 : i ≠ tracerId := fun hh => hni (by simp [nodeObjId, hh])
      rw [markAux.eq_def]
      simp [hni2, ← hc]
    | mixture i c vs =>
      simp only [constantField] at hc
      have hni2 : i ≠ tracerId := fun hh => hni (by simp [nodeObjId, hh])
      rw [markAux.eq_def]
      simp [hni2, hc]
  · intro i f ar kw hi
    rw [markAux.eq_def]
    simp [hi]
  · intro i vs hi
    rw [markAux.eq_def]
    simp [hi, List.attach_map_val, List.map_map, list_all_map, Function.comp]
  · intro i f a b hi
    rw [markAux.eq_def]
    simp [hi]
  · intro i hi
    rw [markAux.eq_def]
    simp [hi]
  · intro i inner hi hv
    cases inner <;> simp only [isValueInst, Bool.false_eq_true] at hv <;>
      (rw [markAux.eq_def]; simp [hi])
  · intro i x hi
    rw [markAux.eq_def]
    simp [hi]

/-- Witness for C5: the rules instantiated at concrete nodes — the tracer
template, the raw number 7, a pre-set node, a distribution, a singleton
mixture, an operation over the tracer and a literal, an inherited wrap, and
the defaults. -/
theorem constancy_classification_rules_witness :
    markAux tracerTemplate0 = (tracerTemplate0, false) ∧
    markConstancyArg (.inl 7) = (.inl 7, true) ∧
    markAux (.valueNum 4 (some false) 9) = (.valueNum 4 (some false) 9, false) ∧
    markAux (.dist 3 (.sampler "normal") [2, 1] [])
      = (.dist 3 (.sampler "normal") [2, 1] [], true) ∧
    markAux (.mixture 5 none [.dist 3 (.sampler "normal") [2, 1] []])
      = (.mixture 5 none
          [setConstant
            (markAux (.dist 3 (.sampler "normal") [2, 1] [])).1
            (markAux (.dist 3 (.sampler "normal") [2, 1] [])).2],
        [Node.dist 3 (.sampler "normal") [2, 1] []].all
          (fun v => (markAux v).2)) ∧
    (markAux (.value 6 none
        (.operation .mul (.valueNum 7 none 2) tracerTemplate0))).2
      = ((markAux (.valueNum 7 none 2)).2 && (markAux tracerTemplate0).2) ∧
    (markAux (.value 6 none (.dist 3 (.sampler "normal") [2, 1] []))).2
      = (markAux (.dist 3 (.sampler "normal") [2, 1] [])).2 ∧
    markAux (.valueNum 8 none 5) = (.valueNum 8 none 5, true) ∧
    (markAux (.valueEmpty 8 none)).2 = true :=
  ⟨constancy_classification_rules.1 tracerTemplate0 rfl,
    constancy_classification_rules.2.1 7,
    constancy_classification_rules.2.2.1 (.valueNum 4 (some false) 9) false
      (by simp [nodeObjId, tracerId]) rfl,
    constancy_classification_rules.2.2.2.1 3 (.sampler "normal") [2, 1] []
      (by decide),
    by
      have h := constancy_classification_rules.2.2.2.2.1 5
        [.dist 3 (.sampler "normal") [2, 1] []] (by decide)
      simpa using h,
    constancy_classification_rules.2.2.2.2.2.1 6 .mul (.valueNum 7 none 2)
      tracerTemplate0 (by decide),
    constancy_classification_rules.2.2.2.2.2.2.2.1 6
      (.dist 3 (.sampler "normal") [2, 1] []) (by decide) rfl,
    constancy_classification_rules.2.2.2.2.2.2.2.2 8 5 (by decide),
    constancy_classification_rules.2.2.2.2.2.2.1 8 (by decide)⟩

/-! ## Claim C1: which tracer object the bfs tree references -/

/-- Rebinding the value of an object id that a tree does not reference
leaves the tree unchanged. -/
theorem rebind_of_not_refs (i : Nat) (x : Rat) (t : Node)
    (h : refsObj i t = false) : rebindValue i x t = t := by
  induction t using rebindValue.induct i x with
  | case1 c inner =>
    rw [refsObj.eq_def] at h
    simp at h
  | case2 j c inner hne ih =>
    rw [refsObj.eq_def] at h
    simp only [Bool.or_eq_false_iff, decide_eq_false_iff_not] at h
    rw [rebindValue.eq_def]
    simp [hne, ih h.2]
  | case3 c y =>
    rw [refsObj.eq_def] at h
    simp at h
  | case4 j c y hne =>
    rw [rebindValue.eq_def]
    simp [hne]
  | case5 c =>
    rw [refsObj.eq_def] at h
    simp at h
  | case6 j c hne =>
    rw [rebindValue.eq_def]
    simp [hne]
  | case7 f a b iha ihb =>
    rw [refsObj.eq_def] at h
    simp only [Bool.or_eq_false_iff] at h
    rw [rebindValue.eq_def]
    simp [iha h.1, ihb h.2]
  | case8 j f ar kw => rw [rebindValue.eq_def]
  | case9 j c vs ih =>
    rw [refsObj.eq_def] at h
    simp only [Bool.or_eq_false_iff, decide_eq_false_iff_not,
      List.any_eq_false] at h
    rw [rebindValue.eq_def]
    simp only [Node.mixture.injEq, true_and]
    have hmap : vs.attach.map (fun p => rebindValue i x p.1)
        = vs.attach.map Subtype.val := by
      refine List.map_congr_left ?_
      intro p _
      refine ih p ?_
      have := h.2 p (List.mem_attach vs p)
      simp [this]
    rw [hmap, List.attach_map_subtype_val]

theorem markAux_template0 :
    markAux (Node.valueNum 0 none 0) = (.valueNum 0 none 0, false) := by
  rw [markAux.eq_def]
  simp [tracerId]

theorem markConstancy_template0 :
    markConstancy tracerTemplate0 = .valueNum 0 (some false) 0 := by
  show markConstancy (Node.valueNum 0 none 0) = _
  simp [markConstancy, markAux_template0, setConstant]

/-- Claim C1 counterexample: at the identity model, `bfs` invokes the model
with the shared module-level template (object id 0), not with the returned
private copy (object id 1): the tree the model builds — as listed by the
returned traversal — consists of the template object, and no node of the
tree references the returned copy.  This contradicts the claim that the
tree references the returned private tracer and not the shared template. -/
theorem bfs_shared_template_counterexample :
    (bfs (fun x => x) tracerTemplate0 1).2 = .valueNum 1 none 0 ∧
    nodeObjId (bfs (fun x => x) tracerTemplate0 1).2 = some 1 ∧
    (bfs (fun x => x) tracerTemplate0 1).1.map nodeObjId = [some tracerId] ∧
    (bfs (fun x => x) tracerTemplate0 1).1.map (refsObj 1) = [false] := by
  have hb : bfs (fun x => x) tracerTemplate0 1
      = (bfsList (.valueNum 0 (some false) 0), .valueNum 1 none 0) := by
    rw [bfs]
    rw [markConstancy_template0]
    rfl
  have hl : bfsList (.valueNum 0 (some false) 0)
      = [.valueNum 0 (some false) 0] := by
    rw [bfsList.eq_def]
  refine ⟨by rw [hb], by rw [hb]; rfl, ?_, ?_⟩
  · rw [hb]
    simp only [hl]
    simp [nodeObjId, tracerId]
  · rw [hb]
    simp only [hl]
    rw [List.map_singleton, refsObj.eq_def]
    simp

/-- Claim C1 (amended): `bfs` invokes the model with the shared module-level
tracer template and returns a fresh private copy of it (a distinct object);
the tree the model builds therefore references the template and, provided
the copy's id is fresh for that tree, not the returned copy — so rebinding
the returned tracer's value is a no-op on the tree.  Running `bfs` twice
with distinct fresh ids yields two distinct tracer objects, and rebinding
one run's tracer affects neither run's tree. -/
theorem bfs_returns_unreferenced_copy
    (model model2 : Node → Node) (template : Node) (f1 f2 tid : Nat) (x : Rat)
    (htid : nodeObjId template = some tid) (hne : f1 ≠ tid) (hne12 : f1 ≠ f2)
    (hfresh1 : refsObj f1 (markConstancy (model template)) = false)
    (hfresh2 : refsObj f1 (markConstancy (model2 template)) = false) :
    (bfs model template f1).2 = copyValue template f1 ∧
    nodeObjId (bfs model template f1).2 = some f1 ∧
    nodeObjId (bfs model template f1).2 ≠ nodeObjId template ∧
    (bfs model template f1).1 = bfsList (markConstancy (model template)) ∧
    nodeObjId (bfs model2 template f2).2 = some f2 ∧
    nodeObjId (bfs model template f1).2
      ≠ nodeObjId (bfs model2 template f2).2 ∧
    rebindValue f1 x (markConstancy (model template))
      = markConstancy (model template) ∧
    rebindValue f1 x (markConstancy (model2 template))
      = markConstancy (model2 template) := by
  have hid : ∀ g : Nat, nodeObjId (copyValue template g) = some g := by
    intro g
    cases template
    case operation => simp [nodeObjId] at htid
    all_goals simp [nodeObjId, copyValue]
  refine ⟨rfl, hid f1, ?_, rfl, hid f2, ?_, ?_, ?_⟩
  · show nodeObjId (copyValue template f1) ≠ nodeObjId template
    rw [hid f1, htid]
    simp [hne]
  · show nodeObjId (copyValue template f1) ≠ nodeObjId (copyValue template f2)
    rw [hid f1, hid f2]
    simp [hne12]
  · exact rebind_of_not_refs f1 x _ hfresh1
  · exact rebind_of_not_refs f1 x _ hfresh2

/-- Witness for the amended C1 at the identity model (both runs), template
ids 1 and 2 for the two copies. -/
theorem bfs_returns_unreferenced_copy_witness :
    (bfs (fun x => x) tracerTemplate0 1).2 = copyValue tracerTemplate0 1 ∧
    nodeObjId (bfs (fun x => x) tracerTemplate0 1).2 = some 1 ∧
    nodeObjId (bfs (fun x => x) tracerTemplate0 1).2
      ≠ nodeObjId tracerTemplate0 ∧
    (bfs (fun x => x) tracerTemplate0 1).1
      = bfsList (markConstancy tracerTemplate0) ∧
    nodeObjId (bfs (fun x => x) tracerTemplate0 2).2 = some 2 ∧
    nodeObjId (bfs (fun x => x) tracerTemplate0 1).2
      ≠ nodeObjId (bfs (fun x => x) tracerTemplate0 2).2 ∧
    rebindValue 1 3 (markConstancy tracerTemplate0)
      = markConstancy tracerTemplate0 ∧
    rebindValue 1 3 (markConstancy tracerTemplate0)
      = markConstancy tracerTemplate0 :=
  bfs_returns_unreferenced_copy (fun x => x) (fun x => x) tracerTemplate0 1 2 0
    3 rfl (by decide) (by decide)
    (by rw [markConstancy_template0, refsObj.eq_def]; simp)
    (by rw [markConstancy_template0, refsObj.eq_def]; simp)

/-! ## Claim C3: stratified mixture allocation -/

theorem zip_replicate_self {α β : Type} (b : β) :
    ∀ l : List α, l.zip (List.replicate l.length b) = l.map (fun i => (i, b))
  | [] => rfl
  | a :: t => by
    simp only [List.length_cons, List.replicate_succ, List.zip_cons_cons,
      List.map_cons]
    rw [zip_replicate_self b t]

/-- The allocation list in range form: position `i` receives
`n / k + (1 if i < n % k else 0)` draws. -/
theorem addRemainder_baseCounts (n k : Nat) :
    addRemainder (n % k) (baseCounts n k) =
      (List.range k).map (fun i => n / k + if i < n % k then 1 else 0) := by
  rw [addRemainder, baseCounts, List.enum_eq_zip_range]
  rw [show (List.replicate k (n / k)).length = k from List.length_replicate _ _]
  rw [show (List.range k).zip (List.replicate k (n / k))
      = (List.range k).map (fun i => (i, n / k)) from by
    have h := zip_replicate_self (n / k) (List.range k)
    rwa [List.length_range] at h]
  rw [List.map_map]
  rfl

theorem range_map_const_ite_sum (b r : Nat) :
    ∀ k, ((List.range k).map (fun i => b + if i < r then 1 else 0)).sum
      = k * b + min r k
  | 0 => by simp
  | k + 1 => by
    rw [List.range_succ, List.map_append, List.sum_append,
      range_map_const_ite_sum b r k, Nat.succ_mul]
    by_cases h : k < r <;> simp [h] <;> omega

theorem range_countP_lt (r : Nat) :
    ∀ k, (List.range k).countP (fun i => decide (i < r)) = min r k
  | 0 => by simp
  | k + 1 => by
    rw [List.range_succ, List.countP_append, range_countP_lt r k]
    by_cases h : k < r <;> simp [List.countP_cons, h] <;> omega

/-- Total draws: `k * (n / k) + n % k = n` for `k ≥ 1`. -/
theorem addRemainder_baseCounts_sum (n k : Nat) (hk : 1 ≤ k) :
    (addRemainder (n % k) (baseCounts n k)).sum = n := by
  rw [addRemainder_baseCounts, range_map_const_ite_sum]
  have hmod : n % k < k := Nat.mod_lt _ hk
  have hdm := Nat.div_add_mod n k
  have : min (n % k) k = n % k := by omega
  rw [this]
  omega

/-- Exactly `n % k` positions receive the extra draw. -/
theorem addRemainder_baseCounts_extra (n k : Nat) (hk : 1 ≤ k) :
    (addRemainder (n % k) (baseCounts n k)).countP
      (fun c => decide (c = n / k + 1)) = n % k := by
  rw [addRemainder_baseCounts, List.countP_map]
  have heq : ((fun c => decide (c = n / k + 1)) ∘
      (fun i => n / k + if i < n % k then 1 else 0))
      = fun i => decide (i < n % k) := by
    funext i
    by_cases h : i < n % k <;> simp [h]
  rw [heq, range_countP_lt]
  have hmod : n % k < k := Nat.mod_lt _ hk
  omega

theorem addRemainder_baseCounts_length (n k : Nat) :
    (addRemainder (n % k) (baseCounts n k)).length = k := by
  rw [addRemainder_baseCounts, List.length_map, List.length_range]

/-! Heap well-formedness: every allocated id is below its fresh counter. -/

def WFS (s : PyState) : Prop :=
  (∀ p ∈ s.ctxHeap, p.1 < s.freshCtx) ∧ (∀ p ∈ s.arrHeap, p.1 < s.freshArr)

/-- Monotone heap extension: fresh counters grow and every resolvable id
keeps resolving to the same object. -/
def HeapLe (s s' : PyState) : Prop :=
  s.freshCtx ≤ s'.freshCtx ∧ s.freshArr ≤ s'.freshArr ∧
  (∀ i v, assocFind s.ctxHeap i = some v → assocFind s'.ctxHeap i = some v) ∧
  (∀ i v, assocFind s.arrHeap i = some v → assocFind s'.arrHeap i = some v)

theorem heapLe_refl (s : PyState) : HeapLe s s :=
  ⟨le_refl _, le_refl _, fun _ _ h => h, fun _ _ h => h⟩

theorem heapLe_trans {s1 s2 s3 : PyState} (h1 : HeapLe s1 s2)
    (h2 : HeapLe s2 s3) : HeapLe s1 s3 :=
  ⟨le_trans h1.1 h2.1, le_trans h1.2.1 h2.2.1,
    fun i v h => h2.2.2.1 i v (h1.2.2.1 i v h),
    fun i v h => h2.2.2.2 i v (h1.2.2.2 i v h)⟩

theorem assocFind_lt_of_WFS_ctx {s : PyState} {i : Nat} {v : Ctx}
    (hwf : WFS s) (h : assocFind s.ctxHeap i = some v) : i < s.freshCtx :=
  hwf.1 (i, v) (assocFind_mem _ _ _ h)

theorem assocFind_lt_of_WFS_arr {s : PyState} {i : Nat} {v : Nat}
    (hwf : WFS s) (h : assocFind s.arrHeap i = some v) : i < s.freshArr :=
  hwf.2 (i, v) (assocFind_mem _ _ _ h)

theorem dictFind_mem (c : Cache) (k : HKey) (v : PVal)
    (h : dictFind c k = some v) : (k, v) ∈ c := by
  induction c with
  | nil => simp [dictFind] at h
  | cons p t ih =>
    obtain ⟨k', v'⟩ := p
    by_cases hp : k' = k
    · subst hp
      simp [dictFind] at h
      subst h
      exact List.mem_cons_self _ _
    · simp [dictFind, hp] at h
      exact List.mem_cons_of_mem _ (ih h)

/-- Entering a scope (no cache override) from a well-formed state with an
active context preserves well-formedness and extends the heap; the cache
and array heaps are untouched. -/
theorem ctxEnter_preserves (ov : Overrides) (s : PyState) (cid : Nat)
    (ctx : Ctx) (hov : ov.cache = none) (h1 : s.cur = some cid)
    (h2 : assocFind s.ctxHeap cid = some ctx) (hwf : WFS s) :
    WFS (ctxEnter ov s).2 ∧ HeapLe s (ctxEnter ov s).2 ∧
    (ctxEnter ov s).2.cacheHeap = s.cacheHeap ∧
    (ctxEnter ov s).2.arrHeap = s.arrHeap ∧
    (ctxEnter ov s).2.cur = some s.freshCtx ∧
    assocFind (ctxEnter ov s).2.ctxHeap s.freshCtx
      = some ⟨ctx.cache, ov.cache_rule.getD ctx.cache_rule,
          ov.sample_count.getD ctx.sample_count⟩ ∧
    (ctxEnter ov s).1 = ⟨cid, s.freshCtx⟩ := by
  rw [ctxEnter_no_cache ov s cid ctx hov h1 h2]
  refine ⟨⟨?_, fun p hp => hwf.2 p hp⟩,
    ⟨by simp, le_refl _, ?_, fun i v h => h⟩, rfl, rfl, rfl,
    assocFind_cons_self _ _ _, rfl⟩
  · intro p hp
    simp only at hp ⊢
    rcases List.mem_cons.mp hp with h | h
    · subst h
      simp
    · have := hwf.1 p h
      omega
  · intro i v h
    simp only
    rw [assocFind_cons_ne _ _ _ _ ?_]
    · exact h
    · have := assocFind_lt_of_WFS_ctx hwf h
      omega

/-- Every cache entry whose key is a `Distribution` cache key maps to an
array of the embedded sample count — the invariant the resolution engine
maintains. -/
def DistWF (s : PyState) : Prop :=
  ∀ cd ∈ s.cacheHeap, ∀ e ∈ cd.2, ∀ (f : FuncId) (args : List Rat)
    (kw : List (String × Rat)) (n : Nat), e.1 = distKey f args kw n →
    ∃ aid, e.2 = PVal.arr aid ∧ assocFind s.arrHeap aid = some n

/-- Resolving a `Distribution` from a well-formed state always yields an
array whose length is the active sample count, preserving the invariants
and the active context. -/
theorem resolve_dist_len (sh : List Nat → List Nat) (oid : Nat) (f : FuncId)
    (args : List Rat) (kw : List (String × Rat)) (s : PyState) (cid : Nat)
    (ctx : Ctx) (h1 : s.cur = some cid)
    (h2 : assocFind s.ctxHeap cid = some ctx) (hwf : WFS s) (hP : DistWF s) :
    ∃ aid s', resolve sh (.dist oid f args kw) s = (.ok (.arr aid), s') ∧
      assocFind s'.arrHeap aid = some ctx.sample_count ∧
      WFS s' ∧ DistWF s' ∧ s'.cur = some cid ∧ HeapLe s s' := by
  rcases hr : cacheRead s ctx.cache (distKey f args kw ctx.sample_count)
    with _ | v
  · -- cache miss: sample fresh, store
    have e := resolve_dist_miss sh oid f args kw s cid ctx h1 h2 hr
    refine ⟨s.freshArr, _, e, assocFind_cons_self _ _ _, ⟨?_, ?_⟩, ?_, rfl,
      by simp, by simp, ?_, ?_⟩
    · intro p hp
      simp only at hp ⊢
      rcases List.mem_cons.mp hp with h | h
      · subst h; simp
      rcases List.mem_cons.mp h with h | h
      · subst h; simp
      rcases List.mem_cons.mp h with h | h
      · subst h; simp
      · have := hwf.1 p h
        omega
    · intro p hp
      simp only at hp ⊢
      rcases List.mem_cons.mp hp with h | h
      · subst h; simp
      · have := hwf.2 p h
        omega
    · -- DistWF is preserved by the store
      intro cd hcd e' he' f' args' kw' n' hk
      simp only at hcd
      rcases List.mem_map.mp hcd with ⟨cd0, hcd0, hmap⟩
      by_cases hc : cd0.1 = ctx.cache
      · rw [if_pos hc] at hmap
        subst hmap
        simp only at he'
        rcases List.mem_cons.mp he' with h | h
        · subst h
          simp only at hk
          have hh : ctx.sample_count = n' := by
            simp [distKey] at hk
            exact hk.2.2.2
          exact ⟨s.freshArr, rfl, by rw [← hh]; exact assocFind_cons_self _ _ _⟩
        · obtain ⟨aid, hv, hfind⟩ := hP cd0 hcd0 e' h f' args' kw' n' hk
          refine ⟨aid, hv, ?_⟩
          simp only
          rw [assocFind_cons_ne _ _ _ _ ?_]
          · exact hfind
          · have := assocFind_lt_of_WFS_arr hwf hfind
            omega
      · rw [if_neg hc] at hmap
        subst hmap
        obtain ⟨aid, hv, hfind⟩ := hP cd0 hcd0 e' he' f' args' kw' n' hk
        refine ⟨aid, hv, ?_⟩
        simp only
        rw [assocFind_cons_ne _ _ _ _ ?_]
        · exact hfind
        · have := assocFind_lt_of_WFS_arr hwf hfind
          omega
    · -- ctx heap finds are preserved (three fresh entries)
      intro i v h
      simp only
      have hlt := assocFind_lt_of_WFS_ctx hwf h
      rw [assocFind_cons_ne _ _ _ _ (by omega),
        assocFind_cons_ne _ _ _ _ (by omega),
        assocFind_cons_ne _ _ _ _ (by omega)]
      exact h
    · -- arr heap finds are preserved (one fresh entry)
      intro i v h
      simp only
      have hlt := assocFind_lt_of_WFS_arr hwf h
      rw [assocFind_cons_ne _ _ _ _ (by omega)]
      exact h
  · -- cache hit: the invariant gives the cached array and its length
    have e := resolve_dist_hit sh oid f args kw s cid ctx v h1 h2 hr
    have hv : ∃ aid, v = PVal.arr aid ∧
        assocFind s.arrHeap aid = some ctx.sample_count := by
      rcases hfind : assocFind s.cacheHeap ctx.cache with _ | c
      · rw [cacheRead, hfind] at hr
        simp at hr
      · rw [cacheRead, hfind] at hr
        have hmem := dictFind_mem c _ v hr
        exact hP (ctx.cache, c) (assocFind_mem _ _ _ hfind)
          (distKey f args kw ctx.sample_count, v) hmem f args kw
          ctx.sample_count rfl
    obtain ⟨aid, hva, hfind⟩ := hv
    subst hva
    refine ⟨aid, _, e, hfind, ⟨?_, fun p hp => hwf.2 p hp⟩, hP, rfl,
      by simp, le_refl _, ?_, fun i v h => h⟩
    · intro p hp
      simp only at hp ⊢
      rcases List.mem_cons.mp hp with h | h
      · subst h; simp
      rcases List.mem_cons.mp h with h | h
      · subst h; simp
      · have := hwf.1 p h
        omega
    · intro i v h
      simp only
      have hlt := assocFind_lt_of_WFS_ctx hwf h
      rw [assocFind_cons_ne _ _ _ _ (by omega),
        assocFind_cons_ne _ _ _ _ (by omega)]
      exact h

theorem heapLe_of_exit (m : CtxMgr) (s : PyState) : HeapLe s (ctxExit m s) :=
  ⟨le_refl _, le_refl _, fun _ _ h => h, fun _ _ h => h⟩

/-- The loop of `Mixture._sample`: resolving each component under a nested
scope overriding `sample_count` to its allocated count yields, provided
each component resolves to an array of the active sample count (hypothesis
`hcomp`, the claim's proviso, stated over an arbitrary invariant `P`), a
list of arrays whose lengths are exactly the allocated counts. -/
theorem resolveEach_lengths
    (sh : List Nat → List Nat) (P : PyState → Prop) (cid : Nat)
    (hPexit : ∀ (m : CtxMgr) (s : PyState), P s → P (ctxExit m s)) :
    ∀ (values : List Node) (counts : List Nat) (s : PyState),
    (∀ v ∈ values, ∀ (s' : PyState) (cid' : Nat) (ctx' : Ctx),
      WFS s' → P s' → s'.cur = some cid' →
      assocFind s'.ctxHeap cid' = some ctx' →
      ∃ aid s'', resolve sh v s' = (.ok (.arr aid), s'') ∧
        assocFind s''.arrHeap aid = some ctx'.sample_count ∧
        WFS s'' ∧ P s'' ∧ s''.cur = some cid' ∧ HeapLe s' s'') →
    (∀ (c : Nat) (s' : PyState), P s' →
      P ((ctxEnter ⟨some c, none, none⟩ s').2)) →
    WFS s → P s → s.cur = some cid →
    (∃ ctx0 : Ctx, assocFind s.ctxHeap cid = some ctx0) →
    ∃ pvs s', resolveEach sh values counts s = (.ok pvs, s') ∧
      WFS s' ∧ P s' ∧ s'.cur = some cid ∧ HeapLe s s' ∧
      pvs.mapM (fun v => match v with
        | PVal.arr i => arrLen s' i
        | _ => none) = some (counts.take values.length)
  | [], counts, s => by
    intro hcomp hPenter hwf hP hcur hctx
    rw [resolveEach]
    exact ⟨[], s, rfl, hwf, hP, hcur, heapLe_refl s, rfl⟩
  | v :: vs, [], s => by
    intro hcomp hPenter hwf hP hcur hctx
    rw [resolveEach]
    exact ⟨[], s, rfl, hwf, hP, hcur, heapLe_refl s, rfl⟩
  | v :: vs, c :: cs, s => by
    intro hcomp hPenter hwf hP hcur hctx
    obtain ⟨ctx0, hctx0⟩ := hctx
    rw [resolveEach]
    have hEnt := ctxEnter_preserves ⟨some c, none, none⟩ s cid ctx0 rfl hcur
      hctx0 hwf
    obtain ⟨hwfE, hleE, _, _, hcurE, hfindE, hmgr⟩ := hEnt
    obtain ⟨aid, s2, heq, hlen, hwf2, hP2, hcur2, hle2⟩ :=
      hcomp v (List.mem_cons_self _ _) (ctxEnter ⟨some c, none, none⟩ s).2
        s.freshCtx ⟨ctx0.cache, ctx0.cache_rule, c⟩ hwfE
        (hPenter c s hP) hcurE hfindE
    rw [heq]
    have hcur3 : (ctxExit (ctxEnter ⟨some c, none, none⟩ s).1 s2).cur
        = some cid := by
      rw [hmgr]
      rfl
    have hwf3 : WFS (ctxExit (ctxEnter ⟨some c, none, none⟩ s).1 s2) := hwf2
    have hP3 : P (ctxExit (ctxEnter ⟨some c, none, none⟩ s).1 s2) :=
      hPexit _ _ hP2
    have hle3 : HeapLe s (ctxExit (ctxEnter ⟨some c, none, none⟩ s).1 s2) :=
      heapLe_trans hleE (heapLe_trans hle2 (heapLe_of_exit _ _))
    obtain ⟨pvs, sF, heq2, hwfF, hPF, hcurF, hleF, hmapF⟩ :=
      resolveEach_lengths sh P cid hPexit vs cs
        (ctxExit (ctxEnter ⟨some c, none, none⟩ s).1 s2)
        (fun w hw => hcomp w (List.mem_cons_of_mem _ hw)) hPenter hwf3 hP3
        hcur3 ⟨ctx0, hle3.2.2.1 cid ctx0 hctx0⟩
    simp only [heq2]
    refine ⟨PVal.arr aid :: pvs, sF, rfl, hwfF, hPF, hcurF,
      heapLe_trans hle3 hleF, ?_⟩
    have hfa : arrLen sF aid = some c := by
      have h2 : assocFind s2.arrHeap aid = some c := by simpa using hlen
      exact hleF.2.2.2 aid c h2
    rw [List.mapM_cons]
    have hloop : List.mapM.loop (fun v => match v with
        | PVal.arr i => arrLen sF i
        | _ => none) pvs [] = some (List.take vs.length cs) := hmapF
    simp [hfa, hloop, List.take_succ_cons]

/-- Claim C3: for a `Mixture` of `k` components resolved under an active
sample count `n` with `1 ≤ k ≤ n`, the allocation gives `n / k` draws to
every component plus one extra draw to exactly `n % k` components, summing
to exactly `n`; the allocation list is then passed through the random
shuffle (any permutation, hypothesis `hsh`), which preserves the total; and
— provided every component resolves, under the nested scope overriding
`sample_count`, to an array of exactly that scope's count (hypothesis
`hcomp`, stated over an arbitrary resolution invariant `P`) — the
concatenated array produced by `_sample` has exactly `n` elements. -/
theorem mixture_stratified_allocation
    (sh : List Nat → List Nat) (P : PyState → Prop) (values : List Node)
    (s : PyState) (cid : Nat) (ctx : Ctx)
    (h1 : s.cur = some cid) (h2 : assocFind s.ctxHeap cid = some ctx)
    (hwf : WFS s) (hP : P s)
    (hsh : ∀ l : List Nat, (sh l).Perm l)
    (hk : 1 ≤ values.length) (hkn : values.length ≤ ctx.sample_count)
    (hPexit : ∀ (m : CtxMgr) (s' : PyState), P s' → P (ctxExit m s'))
    (hPenter : ∀ (ov : Overrides) (s' : PyState), ov.cache = none → P s' →
      P ((ctxEnter ov s').2))
    (hcomp : ∀ v ∈ values, ∀ (s' : PyState) (cid' : Nat) (ctx' : Ctx),
      WFS s' → P s' → s'.cur = some cid' →
      assocFind s'.ctxHeap cid' = some ctx' →
      ∃ aid s'', resolve sh v s' = (.ok (.arr aid), s'') ∧
        assocFind s''.arrHeap aid = some ctx'.sample_count ∧
        WFS s'' ∧ P s'' ∧ s''.cur = some cid' ∧ HeapLe s' s'') :
    (addRemainder (ctx.sample_count % values.length)
        (baseCounts ctx.sample_count values.length)).sum
      = ctx.sample_count ∧
    (addRemainder (ctx.sample_count % values.length)
        (baseCounts ctx.sample_count values.length)).countP
        (fun c => decide (c = ctx.sample_count / values.length + 1))
      = ctx.sample_count % values.length ∧
    (sh (addRemainder (ctx.sample_count % values.length)
        (baseCounts ctx.sample_count values.length))).sum
      = ctx.sample_count ∧
    ∃ aid s', mixtureSample sh values s = (.ok (.arr aid), s') ∧
      assocFind s'.arrHeap aid = some ctx.sample_count := by
  have hsum := addRemainder_baseCounts_sum ctx.sample_count values.length hk
  have hextra := addRemainder_baseCounts_extra ctx.sample_count values.length hk
  have hlenA := addRemainder_baseCounts_length ctx.sample_count values.length
  have hshsum : (sh (addRemainder (ctx.sample_count % values.length)
      (baseCounts ctx.sample_count values.length))).sum = ctx.sample_count := by
    rw [(hsh _).sum_eq, hsum]
  refine ⟨hsum, hextra, hshsum, ?_⟩
  rw [mixtureSample, ctxEnter_empty s cid ctx h1 h2]
  simp only [lookupCtx, assocFind_cons_self, Option.getD_some, ctxExit]
  rw [if_neg (by omega)]
  -- the state after the allocation scope closes
  have hcidlt : cid < s.freshCtx := assocFind_lt_of_WFS_ctx hwf h2
  have hwf1 : WFS { s with
      ctxHeap := (s.freshCtx, ctx) :: s.ctxHeap
      cur := some cid
      freshCtx := s.freshCtx + 1 } := by
    refine ⟨?_, fun p hp => hwf.2 p hp⟩
    intro p hp
    simp only at hp ⊢
    rcases List.mem_cons.mp hp with h | h
    · subst h; simp
    · have := hwf.1 p h
      omega
  have hP1 : P { s with
      ctxHeap := (s.freshCtx, ctx) :: s.ctxHeap
      cur := some cid
      freshCtx := s.freshCtx + 1 } := by
    have hPE := hPenter {} s rfl hP
    rw [ctxEnter_empty s cid ctx h1 h2] at hPE
    exact hPexit ⟨cid, s.freshCtx⟩ _ hPE
  have hfind1 : assocFind ((s.freshCtx, ctx) :: s.ctxHeap) cid = some ctx := by
    rw [assocFind_cons_ne _ _ _ _ (by omega)]
    exact h2
  obtain ⟨pvs, sF, heqR, hwfF, hPF, hcurF, hleF, hmapF⟩ :=
    resolveEach_lengths sh P cid hPexit values
      (sh (addRemainder (ctx.sample_count % values.length)
        (baseCounts ctx.sample_count values.length)))
      { s with
        ctxHeap := (s.freshCtx, ctx) :: s.ctxHeap
        cur := some cid
        freshCtx := s.freshCtx + 1 }
      hcomp (fun c s' hp => hPenter ⟨some c, none, none⟩ s' rfl hp) hwf1 hP1
      rfl ⟨ctx, hfind1⟩
  simp only [heqR]
  have hcl : (sh (addRemainder (ctx.sample_count % values.length)
      (baseCounts ctx.sample_count values.length))).length = values.length := by
    rw [(hsh _).length_eq, hlenA]
  have htake : List.take values.length
      (sh (addRemainder (ctx.sample_count % values.length)
        (baseCounts ctx.sample_count values.length)))
      = sh (addRemainder (ctx.sample_count % values.length)
        (baseCounts ctx.sample_count values.length)) :=
    List.take_of_length_le (by rw [hcl])
  rw [htake] at hmapF
  cases pvs with
  | nil =>
    exfalso
    rw [show List.mapM (fun v => match v with
        | PVal.arr i => arrLen sF i
        | _ => none) ([] : List PVal) = some [] from rfl] at hmapF
    have : (sh (addRemainder (ctx.sample_count % values.length)
        (baseCounts ctx.sample_count values.length))) = [] := by
      simpa using hmapF.symm
    rw [this] at hcl
    simp at hcl
    omega
  | cons p ps =>
    rw [concatArrays]
    · simp only [hmapF, hshsum]
      exact ⟨sF.freshArr, _, rfl, assocFind_cons_self _ _ _⟩
    · simp

/-- `ctxEnter` without a cache override never touches the cache or array
heaps beyond possibly installing a fresh empty default cache, so the
distribution cache invariant survives scope entry. -/
theorem DistWF_ctxEnter (ov : Overrides) (s : PyState) (hov : ov.cache = none)
    (hP : DistWF s) : DistWF (ctxEnter ov s).2 := by
  rw [ctxEnter]
  rcases hc : s.cur with _ | cid
  · rw [getcontext, hc]
    simp only [hov]
    intro cd hcd e he f args kw n hk
    simp only at hcd
    rcases List.mem_cons.mp hcd with h | h
    · subst h
      simp at he
    · exact hP cd h e he f args kw n hk
  · rw [getcontext, hc]
    simp only [hov]
    exact hP

/-- `DistWF` holds in any state whose cache dicts are all empty. -/
theorem DistWF_readyState : DistWF readyState := by
  intro cd hcd e he f args kw n hk
  have : cd = (0, ([] : Cache)) := by
    simpa [readyState, initState, getcontext] using hcd
  subst this
  simp at he

/-- Witness for C3: a mixture over one concrete distribution resolved from
the default context (`n = 1000`, `k = 1`), with the identity shuffle and the
distribution-cache invariant as `P`. -/
theorem mixture_stratified_allocation_witness :
    (addRemainder (1000 % 1) (baseCounts 1000 1)).sum = 1000 ∧
    (addRemainder (1000 % 1) (baseCounts 1000 1)).countP
      (fun c => decide (c = 1000 / 1 + 1)) = 1000 % 1 ∧
    (id (addRemainder (1000 % 1) (baseCounts 1000 1))).sum = 1000 ∧
    ∃ aid s', mixtureSample id [.dist 5 (.sampler "normal") [2, 1] []]
        readyState = (.ok (.arr aid), s') ∧
      assocFind s'.arrHeap aid = some 1000 :=
  mixture_stratified_allocation id DistWF
    [.dist 5 (.sampler "normal") [2, 1] []] readyState 0 ⟨0, "constant", 1000⟩
    rfl rfl (by constructor <;> decide) DistWF_readyState
    (fun l => List.Perm.refl l) (by decide) (by decide)
    (fun m s' h => h) (fun ov s' hov h => DistWF_ctxEnter ov s' hov h)
    (fun v hv s' cid' ctx' hwf' hP' hcur' hctx' => by
      rw [List.mem_singleton.mp hv]
      exact resolve_dist_len id 5 (.sampler "normal") [2, 1] [] s' cid' ctx'
        hcur' hctx' hwf' hP')

end Swungdash
